import Mathlib

/-!
Verification development for the openapi-mcp-bridge repository.

The TypeScript sources are shallowly embedded: JS/JSON runtime values become
the inductive `JValue`, plain objects become ordered association lists with
JS assignment semantics (`objSet`), spreads become `mergeObj`, and the
fallible methods return `Except MCPProxyError`.  Recursion through JSON
trees uses a fuel argument initialised to the tree size `jsize`; every
recursive call descends to a strict subvalue, so the fuel never runs out and
the functions agree with the source's unbounded recursion while remaining
structurally recursive (hence kernel-reducible).
-/

namespace OpenapiMcpBridge

/-- A JavaScript/JSON runtime value.  `undefined` is represented by key
absence in objects (MCP arguments and YAML configs cannot carry it), and
numbers are modelled as integers (no claim depends on float semantics). -/
inductive JValue where
  | null
  | bool (b : Bool)
  | num (n : Int)
  | str (s : String)
  | arr (elems : List JValue)
  | obj (fields : List (String × JValue))
deriving Repr, Inhabited

/-- A JS object: an ordered list of key/value pairs (insertion order). -/
abbrev JObj := List (String × JValue)

mutual
/-- Decidable equality for `JValue` (manual because of the nested `List`). -/
def JValue.beq : JValue → JValue → Bool
  | .null, .null => true
  | .bool a, .bool b => a == b
  | .num a, .num b => a == b
  | .str a, .str b => a == b
  | .arr a, .arr b => JValue.beqList a b
  | .obj a, .obj b => JValue.beqObj a b
  | _, _ => false

def JValue.beqList : List JValue → List JValue → Bool
  | [], [] => true
  | a :: as, b :: bs => JValue.beq a b && JValue.beqList as bs
  | _, _ => false

def JValue.beqObj : List (String × JValue) → List (String × JValue) → Bool
  | [], [] => true
  | (ka, va) :: as, (kb, vb) :: bs => ka == kb && JValue.beq va vb && JValue.beqObj as bs
  | _, _ => false
end

instance : BEq JValue := ⟨JValue.beq⟩

mutual
theorem JValue.beq_iff : ∀ a b : JValue, JValue.beq a b = true ↔ a = b
  | .null, b => by cases b <;> simp [JValue.beq]
  | .bool a, b => by cases b <;> simp [JValue.beq]
  | .num a, b => by cases b <;> simp [JValue.beq]
  | .str a, b => by cases b <;> simp [JValue.beq]
  | .arr a, b => by
      cases b <;> simp [JValue.beq]
      exact JValue.beqList_iff a _
  | .obj a, b => by
      cases b <;> simp [JValue.beq]
      exact JValue.beqObj_iff a _

theorem JValue.beqList_iff : ∀ a b : List JValue, JValue.beqList a b = true ↔ a = b
  | [], b => by cases b <;> simp [JValue.beqList]
  | x :: xs, b => by
      cases b with
      | nil => simp [JValue.beqList]
      | cons y ys =>
          simp [JValue.beqList, Bool.and_eq_true, JValue.beq_iff x y,
            JValue.beqList_iff xs ys]

theorem JValue.beqObj_iff : ∀ a b : List (String × JValue), JValue.beqObj a b = true ↔ a = b
  | [], b => by cases b <;> simp [JValue.beqObj]
  | (k, v) :: xs, b => by
      cases b with
      | nil => simp [JValue.beqObj]
      | cons y ys =>
          obtain ⟨k', v'⟩ := y
          simp [JValue.beqObj, Bool.and_eq_true, JValue.beq_iff v v',
            JValue.beqObj_iff xs ys, and_assoc]
end

instance : DecidableEq JValue := fun a b =>
  decidable_of_iff (JValue.beq a b = true) (JValue.beq_iff a b)

/-- JS truthiness of a value (`if (v)`). -/
def truthyV : JValue → Bool
  | .null => false
  | .bool b => b
  | .num n => n != 0
  | .str s => s != ""
  | .arr _ => true
  | .obj _ => true

/-- JS truthiness of a possibly-absent value (absent = `undefined` = falsy). -/
def truthy : Option JValue → Bool
  | none => false
  | some v => truthyV v

/-- JS property assignment `o[k] = v` on an object: replaces the value at the
first occurrence of `k`, keeping its position, or appends a new entry. -/
def objSet : JObj → String → JValue → JObj
  | [], k, v => [(k, v)]
  | (k', v') :: rest, k, v =>
      if k' = k then (k, v) :: rest else (k', v') :: objSet rest k v

/-- JS object spread `{ ...a, ...b }` / `Object.assign({}, a, b)`. -/
def mergeObj (a b : JObj) : JObj :=
  b.foldl (fun acc kv => objSet acc kv.1 kv.2) a

/-- String-valued map assignment (for `Record<string, string>` headers). -/
def sSet : List (String × String) → String → String → List (String × String)
  | [], k, v => [(k, v)]
  | (k', v') :: rest, k, v =>
      if k' = k then (k, v) :: rest else (k', v') :: sSet rest k v

/-- Interpret a value as an object (`Object.entries` view); non-objects give
no entries. -/
def asObj : JValue → JObj
  | .obj o => o
  | _ => []

/-- Interpret a value as an array; non-arrays give no elements. -/
def asArr : JValue → List JValue
  | .arr l => l
  | _ => []

mutual
/-- Size of a JSON tree, used as fuel for recursion through lookups. -/
def jsize : JValue → Nat
  | .arr l => 1 + jsizeList l
  | .obj o => 1 + jsizeObj o
  | _ => 1

def jsizeList : List JValue → Nat
  | [] => 0
  | v :: rest => jsize v + jsizeList rest

def jsizeObj : List (String × JValue) → Nat
  | [] => 0
  | (_, v) :: rest => jsize v + jsizeObj rest
end

/-- One-level coercion for array elements (`Array.prototype.toString`);
nested arrays/objects are flattened coarsely, which no claim inspects. -/
def jsStringShallow : JValue → String
  | .null => ""
  | .bool true => "true"
  | .bool false => "false"
  | .num n => toString n
  | .str s => s
  | .arr _ => ""
  | .obj _ => "[object Object]"

/-- JS `String(v)` / template-literal coercion. -/
def jsString : JValue → String
  | .null => "null"
  | .bool true => "true"
  | .bool false => "false"
  | .num n => toString n
  | .str s => s
  | .arr l => String.intercalate "," (l.map fun v =>
      match v with
      | .null => ""
      | w => jsStringShallow w)
  | .obj _ => "[object Object]"

/-! ### String helpers shared by the generators -/

/-- ASCII lowercasing of one character; `String.prototype.toLowerCase` on the
identifiers this code builds (methods, paths) only affects ASCII letters,
and every later step filters to ASCII anyway. -/
def lowerChar (c : Char) : Char :=
  if 'A' ≤ c ∧ c ≤ 'Z' then Char.ofNat (c.toNat + 32) else c

/-- Source `s.toLowerCase()`. -/
def lowerStr (s : String) : String := ⟨s.data.map lowerChar⟩

/-- ASCII uppercasing of one character (`toUpperCase`). -/
def upperChar (c : Char) : Char :=
  if 'a' ≤ c ∧ c ≤ 'z' then Char.ofNat (c.toNat - 32) else c

/-- Source `s.toUpperCase()`. -/
def upperStr (s : String) : String := ⟨s.data.map upperChar⟩

/-- Characters kept by `replace(/[^a-z0-9-]/g, '')`. -/
def isToolNameChar (c : Char) : Bool :=
  ('a' ≤ c ∧ c ≤ 'z') ∨ ('0' ≤ c ∧ c ≤ '9') ∨ c = '-'

/-- Characters kept by `replace(/[^a-zA-Z0-9-]/g, '')`. -/
def isPathKeptChar (c : Char) : Bool :=
  ('a' ≤ c ∧ c ≤ 'z') ∨ ('A' ≤ c ∧ c ≤ 'Z') ∨ ('0' ≤ c ∧ c ≤ '9') ∨ c = '-'

/-- Source `replace(/[-]+/g, '-')`: collapse each run of dashes to a single dash. -/
def collapseDashes : List Char → List Char
  | [] => []
  | [c] => [c]
  | a :: b :: rest =>
      if a = '-' ∧ b = '-' then collapseDashes (b :: rest)
      else a :: collapseDashes (b :: rest)

/-- Source `replace(/\/+/g, '-')`: collapse each run of slashes to a single dash. -/
def slashesToDashes : List Char → List Char
  | [] => []
  | [c] => [if c = '/' then '-' else c]
  | a :: b :: rest =>
      if a = '/' ∧ b = '/' then slashesToDashes (b :: rest)
      else (if a = '/' then '-' else a) :: slashesToDashes (b :: rest)

/-- Source `replace(/^x+/, '')` for a character class with one member. -/
def dropLeading (t : Char) (l : List Char) : List Char := l.dropWhile (· = t)

/-- Source `replace(/x+$/, '')`. -/
def dropTrailing (t : Char) (l : List Char) : List Char :=
  (l.reverse.dropWhile (· = t)).reverse

/-- Source `replace(/^-+|-+$/g, '')`. -/
def stripDashes (l : List Char) : List Char := dropTrailing '-' (dropLeading '-' l)

/-- Find the first `'}'`; returns the characters before it and the remainder
after it (the shape of one `[^}]+\}` regex step). -/
def findClose : List Char → Option (List Char × List Char)
  | [] => none
  | c :: rest =>
      if c = '}' then some ([], rest)
      else
        match findClose rest with
        | some (n, r) => some (c :: n, r)
        | none => none

/-- Matches of `/\{([^}]+)\}/g` over a character list, fuel-structured: the
parameter names in order, left to right, non-overlapping, each with a
nonempty body.  `findClose` always returns a strict suffix, so fuel equal to
the list length never runs out and the recursion equals the regex scan. -/
def braceMatchesF : Nat → List Char → List String
  | _, [] => []
  | 0, _ => []
  | fuel + 1, c :: rest =>
      if c = '{' then
        match findClose rest with
        | some (name, rest') =>
            if name.isEmpty then braceMatchesF fuel rest
            else ⟨name⟩ :: braceMatchesF fuel rest'
        | none => braceMatchesF fuel rest
      else braceMatchesF fuel rest

/-- Matches of `/\{([^}]+)\}/g` over a character list. -/
def braceMatches (l : List Char) : List String := braceMatchesF l.length l

/-- Source `String.prototype.replace(pat, '')` with a plain-string pattern: removes
the first occurrence of `pat` (nonempty) from `l`. -/
def removeFirst (pat : List Char) : List Char → List Char
  | [] => []
  | c :: rest =>
      if pat ≠ [] ∧ pat.isPrefixOf (c :: rest) then (c :: rest).drop pat.length
      else c :: removeFirst pat rest

/-! ### Data model (src/types/openapi-mcp.types.ts) -/

/-- One entry of `CustomizationConfig.authenticationOverrides`. -/
structure AuthOverride where
  endpoint : String
  credentials : JObj
deriving Repr, DecidableEq

/-- The `predefinedParameters` section of a customization. -/
structure PredefinedParameters where
  global : Option JObj := none
  endpoints : Option (List (String × JObj)) := none
deriving Repr, DecidableEq

/-- Source `CustomizationConfig` (all three sections optional). -/
structure CustomizationConfig where
  toolAliases : Option (List (String × String)) := none
  predefinedParameters : Option PredefinedParameters := none
  authenticationOverrides : Option (List AuthOverride) := none
deriving Repr, DecidableEq

/-- Source `ParsedParameter`. -/
structure ParsedParameter where
  name : String
  «in» : String
  required : Bool
  schema : JValue := .obj []
  description : Option String := none
deriving Repr, DecidableEq

/-- Source `ParsedRequestBody`: `content` maps a media type to the schema found
under its `{ schema }` wrapper; a media type whose wrapper lacks a schema is
modelled as an absent key (the code only ever reads `content[ct]?.schema`). -/
structure ParsedRequestBody where
  required : Bool
  content : List (String × JValue)
  description : Option String := none
deriving Repr, DecidableEq

/-- Source `ParsedPath`: one operation. -/
structure ParsedPath where
  path : String
  method : String
  operationId : Option String := none
  summary : Option String := none
  description : Option String := none
  parameters : List ParsedParameter := []
  requestBody : Option ParsedRequestBody := none
  security : Option (List JValue) := none
deriving Repr, DecidableEq

/-- Source `ParsedDefinition` (the `responses` field is never read downstream and is
omitted). -/
structure ParsedDefinition where
  servers : List String
  paths : List ParsedPath
  security : List JValue := []
  hash : String
deriving Repr, DecidableEq

/-! ### ToolNameGenerator (src/generators/tool-name-generator.ts) -/

/-- The pair computed by `extractPathParts`: the cleaned static path and the
`{…}` path-parameter names in order.  The static path is the source string
with each regex match removed (first-occurrence string replace), then
slash-trimmed, slashes collapsed to dashes, non `[a-zA-Z0-9-]` characters
dropped, dashes collapsed, and edge dashes stripped. -/
def extractPathParts (path : String) : String × List String :=
  let pathParams := braceMatches path.data
  let afterRemoval := pathParams.foldl
    (fun acc p => removeFirst ('{' :: p.data ++ ['}']) acc) path.data
  let staticPath :=
    stripDashes (collapseDashes ((slashesToDashes
      (dropTrailing '/' (dropLeading '/' afterRemoval))).filter isPathKeptChar))
  (⟨staticPath⟩, pathParams)

/-- Source `sanitizeToolName`: lowercase, keep `[a-z0-9-]`, collapse dash runs,
strip leading/trailing dashes. -/
def sanitizeToolName (name : String) : String :=
  ⟨stripDashes (collapseDashes ((name.data.map lowerChar).filter isToolNameChar))⟩

/-- Source `applyAlias`: a truthy alias entry replaces the tool name. -/
def applyAlias (customization : CustomizationConfig) (toolName : String) : String :=
  match customization.toolAliases with
  | some aliases =>
      match aliases.lookup toolName with
      | some a => if a = "" then toolName else a
      | none => toolName
  | none => toolName

/-- The raw `method`-and-path derived name (shared shape of `generateToolName`
and `getOriginalToolName` before sanitization). -/
def derivedRawName (parsedPath : ParsedPath) : String :=
  let method := lowerStr parsedPath.method
  let parts := extractPathParts parsedPath.path
  if parts.2.length > 0 then
    method ++ "-" ++ parts.1 ++ "-" ++
      String.intercalate "-" (parts.2.map fun p => "by-" ++ p)
  else
    method ++ "-" ++ parts.1

/-- Source `generateToolName` (the `if (parsedPath.operationId)` guard is a JS
truthiness test, so an empty-string operationId falls through to the derived
name). -/
def generateToolName (customization : CustomizationConfig) (parsedPath : ParsedPath) : String :=
  match parsedPath.operationId with
  | some opId =>
      if opId = "" then applyAlias customization (sanitizeToolName (derivedRawName parsedPath))
      else applyAlias customization opId
  | none => applyAlias customization (sanitizeToolName (derivedRawName parsedPath))

/-- Source `getOriginalToolName`. -/
def getOriginalToolName (parsedPath : ParsedPath) : String :=
  match parsedPath.operationId with
  | some opId =>
      if opId = "" then sanitizeToolName (derivedRawName parsedPath)
      else opId
  | none => sanitizeToolName (derivedRawName parsedPath)

/-! ### SchemaConverter (src/converters/schema-converter.ts) -/

/-- Source `Array.isArray`. -/
def isArrV : JValue → Bool
  | .arr _ => true
  | _ => false

/-- Source `convertOpenAPISchemaToJSONSchema`, fuel-structured (fuel starts at the
tree size and every recursive call descends to a strict subvalue, so the fuel
never runs out).  A key assigned `undefined` in the source (e.g. `type` when
the input has none) is modelled as an absent key. -/
def convertSchemaF : Nat → JValue → JValue
  | 0, _ => .obj []
  | fuel + 1, s =>
      if truthyV s = false then .obj []
      else
        let o := asObj s
        let get := fun k => o.lookup k
        let addPresent := fun (acc : JObj) (k : String) =>
          match get k with
          | some v => acc ++ [(k, v)]
          | none => acc
        let addTruthy := fun (acc : JObj) (k : String) =>
          match get k with
          | some v => if truthyV v then acc ++ [(k, v)] else acc
          | none => acc
        let addMapped := fun (acc : JObj) (k : String) =>
          match get k with
          | some v =>
              if truthyV v then
                acc ++ [(k, .arr ((asArr v).map (convertSchemaF fuel)))]
              else acc
          | none => acc
        let j1 := addPresent [] "type"
        let j2 := addTruthy j1 "format"
        let j3 := addTruthy j2 "description"
        let j4 := addPresent j3 "example"
        let j5 := addPresent j4 "default"
        let j6 := addTruthy j5 "enum"
        let j7 := addTruthy j6 "pattern"
        let j8 := addPresent j7 "minimum"
        let j9 := addPresent j8 "maximum"
        let j10 := addPresent j9 "minLength"
        let j11 := addPresent j10 "maxLength"
        let j12 := addPresent j11 "minItems"
        let j13 := addPresent j12 "maxItems"
        let j14 :=
          if get "type" = some (.str "array") ∧ truthy (get "items") then
            j13 ++ [("items", convertSchemaF fuel ((get "items").getD .null))]
          else j13
        let j15 :=
          if get "type" = some (.str "object") then
            let ja :=
              match get "properties" with
              | some props =>
                  if truthyV props then
                    j14 ++ [("properties",
                      .obj ((asObj props).map fun kv => (kv.1, convertSchemaF fuel kv.2)))]
                  else j14
              | none => j14
            let jb :=
              match get "required" with
              | some r => if truthyV r then ja ++ [("required", r)] else ja
              | none => ja
            match get "additionalProperties" with
            | some (.bool b) => jb ++ [("additionalProperties", .bool b)]
            | some v => jb ++ [("additionalProperties", convertSchemaF fuel v)]
            | none => jb
          else j14
        .obj (addMapped (addMapped (addMapped j15 "allOf") "oneOf") "anyOf")

/-- Source `convertOpenAPISchemaToJSONSchema`. -/
def convertSchema (s : JValue) : JValue := convertSchemaF (jsize s) s

/-- The MCP input schema skeleton `{ type: "object", properties, required }`. -/
structure InputSchema where
  type : String := "object"
  properties : JObj := []
  required : List String := []
deriving Repr, DecidableEq

/-- Source `addParameterToSchema`: the property is the converted schema spread into
a fresh object with the parameter description assigned on top. -/
def addParameterToSchema (schema : InputSchema) (param : ParsedParameter) : InputSchema :=
  let jsonSchema := convertSchema param.schema
  let prop : JValue := .obj
    (match param.description with
     | some d => objSet (asObj jsonSchema) "description" (.str d)
     | none => asObj jsonSchema)
  { schema with
    properties := objSet schema.properties param.name prop
    required := if param.required then schema.required ++ [param.name] else schema.required }

/-- The media types `addRequestBodyToSchema` supports, in probe order. -/
def supportedContentTypes : List String :=
  ["application/json", "application/x-www-form-urlencoded", "multipart/form-data"]

/-- The first supported media type carrying a truthy schema, with that
schema (the `for … break` loop of `addRequestBodyToSchema`). -/
def selectContent (rb : ParsedRequestBody) : Option (String × JValue) :=
  (supportedContentTypes.filterMap fun ct =>
    match rb.content.lookup ct with
    | some sch => if truthyV sch then some (ct, sch) else none
    | none => none).head?

/-- Source `flattenObjectSchema`. -/
def flattenObjectSchema (target : InputSchema) (source : JValue) (required : Bool) :
    InputSchema :=
  if (asObj source).lookup "type" = some (.str "object") ∧
      truthy ((asObj source).lookup "properties") then
    let target1 := { target with
      properties := mergeObj target.properties
        (asObj (((asObj source).lookup "properties").getD .null)) }
    match (asObj source).lookup "required" with
    | some r =>
        if truthyV r ∧ isArrV r then
          { target1 with required := target1.required ++ (asArr r).map jsString }
        else target1
    | none => target1
  else
    { target with
      properties := objSet target.properties "body" source
      required := if required then target.required ++ ["body"] else target.required }

/-- Source `addRequestBodyToSchema`. -/
def addRequestBodyToSchema (schema : InputSchema) (rb : ParsedRequestBody) : InputSchema :=
  match selectContent rb with
  | none => schema
  | some (ct, sch) =>
      let bodySchema := convertSchema sch
      if ct = "application/json" then flattenObjectSchema schema bodySchema rb.required
      else
        { schema with
          properties := objSet schema.properties "body" bodySchema
          required := if rb.required then schema.required ++ ["body"] else schema.required }

/-- One `schema.properties[key].default = value` step, guarded by the
truthiness of the existing property. -/
def setDefaultIfPresent (schema : InputSchema) (k : String) (v : JValue) : InputSchema :=
  match schema.properties.lookup k with
  | some prop =>
      if truthyV prop then
        { schema with properties := objSet schema.properties k (.obj (objSet (asObj prop) "default" v)) }
      else schema
  | none => schema

/-- Source `applyPredefinedParameters`. -/
def applyPredefinedParameters (customization : CustomizationConfig) (toolName : String)
    (schema : InputSchema) : InputSchema :=
  match customization.predefinedParameters with
  | none => schema
  | some pp =>
      let s1 :=
        match pp.global with
        | some g => g.foldl (fun acc kv => setDefaultIfPresent acc kv.1 kv.2) schema
        | none => schema
      match pp.endpoints with
      | some eps =>
          match eps.lookup toolName with
          | some ps => ps.foldl (fun acc kv => setDefaultIfPresent acc kv.1 kv.2) s1
          | none => s1
      | none => s1

/-- Source `convertToMCPInputSchema`. -/
def convertToMCPInputSchema (customization : CustomizationConfig) (parsedPath : ParsedPath)
    (toolName : String) : InputSchema :=
  let s1 := parsedPath.parameters.foldl addParameterToSchema {}
  let s2 :=
    match parsedPath.requestBody with
    | some rb => addRequestBodyToSchema s1 rb
    | none => s1
  applyPredefinedParameters customization toolName s2

/-- The parameter-location mapping of a tool. -/
structure ParameterMapping where
  pathParams : List (String × String) := []
  queryParams : List String := []
  headerParams : List String := []
  cookieParams : List String := []
  bodySchema : Option JValue := none
deriving Repr, DecidableEq

/-- Source `createParameterMapping`. -/
def createParameterMapping (parsedPath : ParsedPath) : ParameterMapping :=
  let m := parsedPath.parameters.foldl
    (fun (acc : ParameterMapping) p =>
      if p.«in» = "path" then { acc with pathParams := sSet acc.pathParams p.name p.name }
      else if p.«in» = "query" then { acc with queryParams := acc.queryParams ++ [p.name] }
      else if p.«in» = "header" then { acc with headerParams := acc.headerParams ++ [p.name] }
      else if p.«in» = "cookie" then { acc with cookieParams := acc.cookieParams ++ [p.name] }
      else acc)
    {}
  let bodySchema :=
    match parsedPath.requestBody with
    | some rb =>
        match rb.content.lookup "application/json" with
        | some sch => if truthyV sch then some (convertSchema sch) else none
        | none => none
    | none => none
  { m with bodySchema := bodySchema }

/-! ### Errors (src/types/errors.ts) -/

/-- Source `ErrorType`. -/
inductive ErrorType where
  | invalidOpenapi
  | missingTool
  | parameterValidation
  | authenticationFailed
  | apiRequestFailed
  | networkError
deriving Repr, DecidableEq

/-- Source `MCPProxyError`; `details` keeps the error strings passed in the
`{ errors }` detail payload (empty when the source passes none). -/
structure MCPProxyError where
  type : ErrorType
  message : String
  details : List String := []
deriving Repr, DecidableEq

/-! ### ToolDefinition and the enricher (src/enrichers/definition-enricher.ts) -/

structure ToolEndpoint where
  path : String
  url : String
deriving Repr, DecidableEq

structure ToolAuthentication where
  type : String
  credentials : JObj
deriving Repr, DecidableEq

/-- Source `ToolDefinition`. -/
structure ToolDefinition where
  name : String
  description : String
  method : String
  endpoint : ToolEndpoint
  inputSchema : InputSchema
  parameterMapping : ParameterMapping
  authentication : Option ToolAuthentication := none
  predefinedParams : JObj := []
  security : Option (List JValue) := none
deriving Repr, DecidableEq

structure EnrichedMetadata where
  sourceFile : String
  customFile : Option String := none
  generatedAt : String
deriving Repr, DecidableEq

/-- Source `EnrichedDefinition`. -/
structure EnrichedDefinition where
  hash : String
  serverUrl : String
  security : List JValue := []
  tools : List ToolDefinition
  metadata : EnrichedMetadata
deriving Repr, DecidableEq

/-- JS `a || b` for an optional string (empty strings are falsy). -/
def jsOrStr (a : Option String) (b : String) : String :=
  match a with
  | some s => if s = "" then b else s
  | none => b

/-- Source `extractPredefinedParams`: global predefined parameters overlaid with the
per-endpoint ones via `Object.assign`. -/
def extractPredefinedParams (customization : CustomizationConfig) (toolName : String) : JObj :=
  let p1 :=
    match customization.predefinedParameters with
    | some pp =>
        match pp.global with
        | some g => mergeObj [] g
        | none => []
    | none => []
  match customization.predefinedParameters with
  | some pp =>
      match pp.endpoints with
      | some eps =>
          match eps.lookup toolName with
          | some o => mergeObj p1 o
          | none => p1
      | none => p1
  | none => p1

/-- Source `extractAuthenticationConfig`: first override whose endpoint is `*` or
the tool name, with the auth type inferred from the credential shape. -/
def extractAuthenticationConfig (customization : CustomizationConfig) (toolName : String) :
    Option ToolAuthentication :=
  match customization.authenticationOverrides with
  | none => none
  | some overrides =>
      match overrides.find? fun o => o.endpoint = "*" ∨ o.endpoint = toolName with
      | some o =>
          let t :=
            if truthy (o.credentials.lookup "username") ∧
                truthy (o.credentials.lookup "password") then "basic"
            else if truthy (o.credentials.lookup "token") then "bearer"
            else if truthy (o.credentials.lookup "key") then "apiKey"
            else "unknown"
          some ⟨t, o.credentials⟩
      | none => none

/-- One `ToolDefinition` of the enricher's per-path loop. -/
def buildTool (customization : CustomizationConfig) (serverUrl : String)
    (parsedPath : ParsedPath) : ToolDefinition :=
  let toolName := generateToolName customization parsedPath
  { name := toolName
    description := jsOrStr parsedPath.summary
      (jsOrStr parsedPath.description (upperStr parsedPath.method ++ " " ++ parsedPath.path))
    method := upperStr parsedPath.method
    endpoint := ⟨parsedPath.path, serverUrl ++ parsedPath.path⟩
    inputSchema := convertToMCPInputSchema customization parsedPath toolName
    parameterMapping := createParameterMapping parsedPath
    authentication := extractAuthenticationConfig customization toolName
    predefinedParams := extractPredefinedParams customization toolName
    security := parsedPath.security }

/-- Source `generateEnrichedDefinition` (the pure compilation step of
`enrichDefinition`; the timestamp is passed in instead of read from the
clock). -/
def generateEnrichedDefinition (parsed : ParsedDefinition)
    (customization : CustomizationConfig) (sourceFile : String)
    (customFile : Option String) (hash : String) (generatedAt : String) :
    EnrichedDefinition :=
  let serverUrl := parsed.servers.headD ""
  { hash := hash
    serverUrl := serverUrl
    security := parsed.security
    tools := parsed.paths.map (buildTool customization serverUrl)
    metadata := ⟨sourceFile, customFile, generatedAt⟩ }

/-! ### AuthenticationHandler (src/handlers/authentication-handler.ts) -/

/-- Source `HttpRequest` by value: headers as a string map with JS assignment
semantics. -/
structure HttpRequest where
  method : String
  url : String
  headers : List (String × String) := []
  params : Option JObj := none
  body : Option JValue := none
deriving Repr, DecidableEq

/-- RFC 4648 base64 alphabet. -/
def base64Alphabet : List Char :=
  "ABCDEFGHIJKLMNOPQRSTUVWXYZabcdefghijklmnopqrstuvwxyz0123456789+/".data

def b64Char (n : Nat) : Char := base64Alphabet.getD n 'A'

/-- Base64 of a byte list, three bytes a group, `=`-padded. -/
def base64Groups : List Nat → List Char
  | [] => []
  | [a] => [b64Char (a / 4), b64Char (a % 4 * 16), '=', '=']
  | [a, b] => [b64Char (a / 4), b64Char (a % 4 * 16 + b / 16), b64Char (b % 16 * 4), '=']
  | a :: b :: c :: rest =>
      b64Char (a / 4) :: b64Char (a % 4 * 16 + b / 16) ::
      b64Char (b % 16 * 4 + c / 64) :: b64Char (c % 64) :: base64Groups rest

/-- Source `Buffer.from(s).toString('base64')` (UTF-8 bytes, base64-encoded). -/
def base64Str (s : String) : String := ⟨base64Groups (s.toUTF8.data.toList.map (·.toNat))⟩

/-- Source `applyBasicAuth`, returning the updated request or the thrown error. -/
def applyBasicAuth (request : HttpRequest) (credentials : JObj) :
    Except MCPProxyError HttpRequest :=
  let username := credentials.lookup "username"
  let password := credentials.lookup "password"
  if truthy username = false ∨ truthy password = false then
    .error ⟨.authenticationFailed, "Basic authentication requires username and password", []⟩
  else
    let auth := base64Str (jsString (username.getD .null) ++ ":" ++ jsString (password.getD .null))
    .ok { request with headers := sSet request.headers "Authorization" ("Basic " ++ auth) }

/-- Source `applyBearerAuth`. -/
def applyBearerAuth (request : HttpRequest) (credentials : JObj) :
    Except MCPProxyError HttpRequest :=
  let token := credentials.lookup "token"
  if truthy token = false then
    .error ⟨.authenticationFailed, "Bearer authentication requires a token", []⟩
  else
    .ok { request with
      headers := sSet request.headers "Authorization" ("Bearer " ++ jsString (token.getD .null)) }

/-- Source `applyApiKeyAuth`; destructuring defaults fire only on absent (undefined)
fields, and the `in` switch compares against the literal strings. -/
def applyApiKeyAuth (request : HttpRequest) (credentials : JObj) :
    Except MCPProxyError HttpRequest :=
  let key := credentials.lookup "key"
  if truthy key = false then
    .error ⟨.authenticationFailed, "API key authentication requires a key", []⟩
  else
    let nameV := (credentials.lookup "name").getD (.str "X-API-Key")
    let locV := (credentials.lookup "in").getD (.str "header")
    if locV = .str "header" then
      .ok { request with headers := sSet request.headers (jsString nameV) (jsString (key.getD .null)) }
    else if locV = .str "query" then
      .ok { request with
        params := some (objSet (request.params.getD []) (jsString nameV) (key.getD .null)) }
    else if locV = .str "cookie" then
      let existingCookies := ((request.headers.lookup "Cookie").getD "")
      let newCookie := jsString nameV ++ "=" ++ jsString (key.getD .null)
      .ok { request with
        headers := sSet request.headers "Cookie"
          (if existingCookies = "" then newCookie else existingCookies ++ "; " ++ newCookie) }
    else
      .error ⟨.authenticationFailed, "Unsupported API key location: " ++ jsString locV, []⟩

/-- Source `applyAuth` by value (the aliasing behaviour of the source's shallow
`{ ...request }` copy is modelled separately for the frame claim). -/
def applyAuth (request : HttpRequest)
    (authType : String) (credentials : JObj) : Except MCPProxyError HttpRequest :=
  if authType = "basic" then applyBasicAuth request credentials
  else if authType = "bearer" then applyBearerAuth request credentials
  else if authType = "apiKey" then applyApiKeyAuth request credentials
  else .error ⟨.authenticationFailed, "Unsupported authentication type: " ++ authType, []⟩

/-- Source `mergeCredentials`. -/
def mergeCredentials (defaultCredentials toolCredentials : JObj) : JObj :=
  mergeObj (mergeObj [] defaultCredentials) toolCredentials

/-! #### Heap model of `applyAuth` for the frame/aliasing claim

`{ ...request }` copies the scalar fields and the *reference* to the headers
object.  `HttpRequestRef` carries that reference into a store of header
maps; `applyBasicAuth` then writes through the shared reference.  The
`params`/`body` fields are not needed by the basic path and are omitted. -/

structure HttpRequestRef where
  method : String
  url : String
  headersRef : Nat
deriving Repr, DecidableEq

/-- A store of headers objects, indexed by reference. -/
abbrev HeaderStore := List (List (String × String))

/-- Write `headers['Authorization']` through a reference. -/
def storeSetHeader (store : HeaderStore) (ref : Nat) (k v : String) : HeaderStore :=
  store.set ref (sSet (store.getD ref []) k v)

/-- Source `applyAuth` with reference semantics, `basic` type: the spread copy
shares the headers reference with the input request, and the header write
goes through that shared reference. -/
def applyAuthHeapBasic (store : HeaderStore) (request : HttpRequestRef)
    (credentials : JObj) : Except MCPProxyError (HeaderStore × HttpRequestRef) :=
  let updatedRequest : HttpRequestRef :=
    { method := request.method, url := request.url, headersRef := request.headersRef }
  let username := credentials.lookup "username"
  let password := credentials.lookup "password"
  if truthy username = false ∨ truthy password = false then
    .error ⟨.authenticationFailed, "Basic authentication requires username and password", []⟩
  else
    let auth := base64Str (jsString (username.getD .null) ++ ":" ++ jsString (password.getD .null))
    .ok (storeSetHeader store updatedRequest.headersRef "Authorization" ("Basic " ++ auth),
      updatedRequest)

/-! ### CustomizationConfigLoader.resolveEnvironmentVariables
(src/parsers/customization-loader.ts) -/

/-- The environment, as `process.env` lookups. -/
abbrev Env := String → Option String

/-- Source `process.env[name] || match`: the replacement text for one `${name}`
placeholder — the environment value when it is set and non-empty (JS `||` is
a truthiness test), otherwise the matched text itself. -/
def envApply (env : Env) (name : List Char) : List Char :=
  match env ⟨name⟩ with
  | some v => if v = "" then '$' :: '{' :: (name ++ ['}']) else v.data
  | none => '$' :: '{' :: (name ++ ['}'])

/-- Source `value.replace(/\$\{([^}]+)\}/g, …)`, fuel-structured: a left-to-right
scan; at `"${"` the characters up to the first `'}'` form the name when
nonempty, otherwise scanning resumes one character later.  Fuel equal to the
input length never runs out (each step consumes at least one character). -/
def replacePHF (env : Env) : Nat → List Char → List Char
  | _, [] => []
  | 0, l => l
  | fuel + 1, c :: rest =>
      if c = '$' then
        match rest with
        | '{' :: rest2 =>
            match findClose rest2 with
            | some (name, rest3) =>
                if name.isEmpty then c :: replacePHF env fuel rest
                else envApply env name ++ replacePHF env fuel rest3
            | none => c :: replacePHF env fuel rest
        | _ => c :: replacePHF env fuel rest
      else c :: replacePHF env fuel rest

/-- Source `${NAME}` placeholder resolution over one string value. -/
def resolveString (env : Env) (s : String) : String := ⟨replacePHF env s.data.length s.data⟩

mutual
/-- Source `resolveObjectEnvironmentVars` on one value: strings are
placeholder-resolved, objects and arrays are recursed into, everything else
is left alone. -/
def resolveVal (env : Env) : JValue → JValue
  | .str s => .str (resolveString env s)
  | .arr l => .arr (resolveValList env l)
  | .obj o => .obj (resolveValObj env o)
  | v => v

def resolveValList (env : Env) : List JValue → List JValue
  | [] => []
  | v :: rest => resolveVal env v :: resolveValList env rest

def resolveValObj (env : Env) : List (String × JValue) → List (String × JValue)
  | [] => []
  | (k, v) :: rest => (k, resolveVal env v) :: resolveValObj env rest
end

/-- Source `resolveEnvironmentVariables`: deep-clones the config (identity in this
pure model) and resolves placeholders inside each override's credentials and
inside the predefined parameters; nothing else is visited. -/
def resolveEnvironmentVariables (env : Env) (config : CustomizationConfig) :
    CustomizationConfig :=
  { config with
    authenticationOverrides := config.authenticationOverrides.map fun overrides =>
      overrides.map fun o => { o with credentials := resolveValObj env o.credentials }
    predefinedParameters := config.predefinedParameters.map fun pp =>
      { pp with
        global := pp.global.map (resolveValObj env)
        endpoints := pp.endpoints.map fun eps =>
          eps.map fun kv => (kv.1, resolveValObj env kv.2) } }

/-! ### MCPProxyService (src/services/mcp-proxy-service.ts) -/

/-- The slice of `LibraryConfig` the request pipeline reads. -/
structure LibraryConfig where
  serverVersion : Option String := none
  defaultCredentials : Option JObj := none
deriving Repr, DecidableEq

/-- Source `ValidationResult`. -/
structure ValidationResult where
  valid : Bool
  errors : List String
deriving Repr, DecidableEq

/-- Source `validateParameters`: every required field whose argument is undefined
(absent) or null produces an error, in schema order. -/
def validateParameters (tool : ToolDefinition) (params : JObj) : ValidationResult :=
  let errors := tool.inputSchema.required.filterMap fun r =>
    if params.lookup r = none ∨ params.lookup r = some .null then
      some ("Missing required parameter: " ++ r)
    else none
  ⟨errors.isEmpty, errors⟩

/-- Hexadecimal digit (uppercase, as `encodeURIComponent` produces). -/
def hexDigit (n : Nat) : Char := "0123456789ABCDEF".data.getD n '0'

/-- Characters `encodeURIComponent` leaves unescaped. -/
def isURIUnreserved (c : Char) : Bool :=
  (c.isAlphanum ∧ c.toNat < 128) ∨ c ∈ ['-', '_', '.', '!', '~', '*', '\'', '(', ')']

/-- Source `encodeURIComponent`: unreserved characters kept, all others UTF-8
percent-encoded. -/
def encodeURIComponent (s : String) : String :=
  ⟨s.data.foldr
    (fun c acc =>
      if isURIUnreserved c then c :: acc
      else ((String.singleton c).toUTF8.data.toList.foldr
        (fun b acc2 => '%' :: hexDigit (b.toNat / 16) :: hexDigit (b.toNat % 16) :: acc2) acc))
    []⟩

/-- Source `String.prototype.replace(pat, rep)` with plain-string pattern and
replacement: substitutes the first occurrence. -/
def replaceFirst (pat rep : List Char) : List Char → List Char
  | [] => []
  | c :: rest =>
      if pat ≠ [] ∧ pat.isPrefixOf (c :: rest) then rep ++ (c :: rest).drop pat.length
      else c :: replaceFirst pat rep rest

/-- Source `url.replace('{' + pathVar + '}', encodeURIComponent(String(value)))`. -/
def substPathParam (url : String) (pathVar : String) (value : JValue) : String :=
  ⟨replaceFirst ('{' :: (pathVar.data ++ ['}'])) (encodeURIComponent (jsString value)).data url.data⟩

/-- Source `buildHttpRequest`.  The merged map `{ ...tool.predefinedParams,
...params }` — supplied arguments winning each key collision — feeds every
parameter location. -/
def buildHttpRequest (config : LibraryConfig) (tool : ToolDefinition) (params : JObj) :
    HttpRequest :=
  let headers0 : List (String × String) :=
    [("Content-Type", "application/json"),
     ("User-Agent", "openapi-mcp-server/" ++ jsOrStr config.serverVersion "1.0.0")]
  let allParams := mergeObj tool.predefinedParams params
  let url := tool.parameterMapping.pathParams.foldl
    (fun u kv =>
      match allParams.lookup kv.1 with
      | some v => substPathParam u kv.2 v
      | none => u)
    tool.endpoint.url
  let queryParams := tool.parameterMapping.queryParams.foldl
    (fun acc name =>
      match allParams.lookup name with
      | some v => objSet acc name v
      | none => acc)
    []
  let headers1 := tool.parameterMapping.headerParams.foldl
    (fun acc name =>
      match allParams.lookup name with
      | some v => sSet acc name (jsString v)
      | none => acc)
    headers0
  let headers2 := tool.parameterMapping.cookieParams.foldl
    (fun acc name =>
      match allParams.lookup name with
      | some v =>
          let existingCookies := (acc.lookup "Cookie").getD ""
          let newCookie := name ++ "=" ++ encodeURIComponent (jsString v)
          sSet acc "Cookie"
            (if existingCookies = "" then newCookie else existingCookies ++ "; " ++ newCookie)
      | none => acc)
    headers1
  let body0 : Option JValue :=
    if truthy tool.parameterMapping.bodySchema then
      let bodyParams := allParams.filter fun kv =>
        truthy ((tool.parameterMapping.pathParams.lookup kv.1).map .str) = false ∧
        tool.parameterMapping.queryParams.contains kv.1 = false ∧
        tool.parameterMapping.headerParams.contains kv.1 = false ∧
        tool.parameterMapping.cookieParams.contains kv.1 = false
      if bodyParams.isEmpty then none else some (.obj bodyParams)
    else none
  let body :=
    if truthy (allParams.lookup "body") ∧ truthy tool.parameterMapping.bodySchema = false then
      allParams.lookup "body"
    else body0
  { method := tool.method
    url := url
    headers := headers2
    params := if queryParams.isEmpty then none else some queryParams
    body := body }

/-- Source `applyAuthentication`: tool-level auth (with merged default credentials)
first, otherwise default credentials with the type inferred from their
shape, otherwise the request unchanged. -/
def applyAuthentication (config : LibraryConfig) (tool : ToolDefinition)
    (request : HttpRequest) : Except MCPProxyError HttpRequest :=
  match tool.authentication with
  | some auth =>
      let credentials := mergeCredentials (config.defaultCredentials.getD []) auth.credentials
      applyAuth request auth.type credentials
  | none =>
      match config.defaultCredentials with
      | some defaults =>
          let authType :=
            if truthy (defaults.lookup "username") ∧ truthy (defaults.lookup "password") then
              "basic"
            else if truthy (defaults.lookup "token") then "bearer"
            else if truthy (defaults.lookup "key") then "apiKey"
            else "unknown"
          if authType ≠ "unknown" then applyAuth request authType defaults
          else .ok request
      | none => .ok request

/-- The outcome of one `axios(config)` call: resolution (a response whose
status passed `validateStatus`), rejection with a response attached
(`error.response`), rejection with a request but no response
(`error.request`), or a setup failure before any request existed. -/
inductive AxiosOutcome where
  | resolved (status : Int) (statusText : String) (headers : JObj) (data : JValue)
  | rejectedResponse (status : Int) (statusText : String) (headers : JObj) (data : JValue)
      (message : String)
  | rejectedNoResponse (message : String)
  | rejectedSetup (message : String)
deriving Repr, DecidableEq

/-- Source `executeHttpRequest`, with the transport passed in as a function from
the request to its axios outcome. -/
def executeHttpRequest (request : HttpRequest) (transport : HttpRequest → AxiosOutcome) :
    Except MCPProxyError JValue :=
  match transport request with
  | .resolved status statusText headers data =>
      .ok (.obj [("status", .num status), ("statusText", .str statusText),
        ("headers", .obj headers), ("data", data)])
  | .rejectedResponse status statusText _headers data message =>
      .ok (.obj [("error", .bool true), ("status", .num status),
        ("statusText", .str statusText), ("message", .str message), ("data", data)])
  | .rejectedNoResponse message =>
      .error ⟨.networkError, "Network error: " ++ message, []⟩
  | .rejectedSetup message =>
      .error ⟨.apiRequestFailed, "Request failed: " ++ message, []⟩

/-- Source `findToolDefinition`: first matching tool across the loaded definitions
in load order. -/
def findToolDefinition (definitions : List EnrichedDefinition) (toolName : String) :
    Option ToolDefinition :=
  (definitions.flatMap (·.tools)).find? fun t => t.name = toolName

/-- Source `executeTool`, instrumented with the list of HTTP requests handed to the
transport (empty when the call fails before the network). -/
def executeTool (config : LibraryConfig) (definitions : List EnrichedDefinition)
    (toolName : String) (params : JObj) (transport : HttpRequest → AxiosOutcome) :
    Except MCPProxyError JValue × List HttpRequest :=
  match findToolDefinition definitions toolName with
  | none => (.error ⟨.missingTool, "Tool '" ++ toolName ++ "' not found", []⟩, [])
  | some tool =>
      let validation := validateParameters tool params
      if validation.valid = false then
        (.error ⟨.parameterValidation,
          "Parameter validation failed: " ++ String.intercalate ", " validation.errors,
          validation.errors⟩, [])
      else
        let httpRequest := buildHttpRequest config tool params
        match applyAuthentication config tool httpRequest with
        | .error e => (.error e, [])
        | .ok authenticatedRequest =>
            (executeHttpRequest authenticatedRequest transport, [authenticatedRequest])

/-! ### generateCombinedHash (src/enrichers/definition-enricher.ts)

`JSON.stringify(customization, Object.keys(customization).sort())` passes an
*array replacer*: per the `SerializeJSONObject` algorithm the property list
applies at **every** nesting level — each object serializes exactly the keys
of that list, in list order, and arrays are unaffected.  The SHA-256 digest
is modelled by its preimage string: the only equalities proved about the
hash are between *equal* preimages, for which the digests are equal too. -/

/-- JSON string escaping (quote, backslash, the named control escapes, and
`\u00XX` for other control characters). -/
def jsonEscapeChar (c : Char) : List Char :=
  if c = '"' then ['\\', '"']
  else if c = '\\' then ['\\', '\\']
  else if c = '\n' then ['\\', 'n']
  else if c = '\r' then ['\\', 'r']
  else if c = '\t' then ['\\', 't']
  else if c = '\x08' then ['\\', 'b']
  else if c = '\x0c' then ['\\', 'f']
  else if c.toNat < 32 then
    ['\\', 'u', '0', '0', hexDigit (c.toNat / 16), hexDigit (c.toNat % 16)]
  else [c]

/-- Source `JSON.stringify` of a string value. -/
def jsonQuote (s : String) : String :=
  ⟨'"' :: s.data.foldr (fun c acc => jsonEscapeChar c ++ acc) ['"']⟩

/-- Source `JSON.stringify(v, propertyList?)`, fuel-structured.  With a property
list, every object serializes the listed keys it owns, in list order;
without one, an object serializes its own keys in insertion order. -/
def jstrF (pl : Option (List String)) : Nat → JValue → String
  | _, .null => "null"
  | _, .bool true => "true"
  | _, .bool false => "false"
  | _, .num n => toString n
  | _, .str s => jsonQuote s
  | 0, .arr _ => ""
  | 0, .obj _ => ""
  | fuel + 1, .arr l =>
      "[" ++ String.intercalate "," (l.map (jstrF pl fuel)) ++ "]"
  | fuel + 1, .obj fields =>
      let keys := match pl with
        | some ks => ks
        | none => fields.map Prod.fst
      let entries := keys.filterMap fun k =>
        (fields.lookup k).map fun v => jsonQuote k ++ ":" ++ jstrF pl fuel v
      "\x7b" ++ String.intercalate "," entries ++ "\x7d"

/-- Source `JSON.stringify(v, propertyList?)`. -/
def jstringify (pl : Option (List String)) (v : JValue) : String := jstrF pl (jsize v) v

/-- Lexicographic string order by character code (`Array.prototype.sort`'s
default UTF-16 comparison). -/
def strLeB : List Char → List Char → Bool
  | [], _ => true
  | _ :: _, [] => false
  | a :: as, b :: bs =>
      if a.toNat < b.toNat then true
      else if b.toNat < a.toNat then false
      else strLeB as bs

/-- Insertion sort with the default JS string comparison. -/
def insertSorted (s : String) : List String → List String
  | [] => [s]
  | t :: rest => if strLeB s.data t.data then s :: t :: rest else t :: insertSorted s rest

/-- Source `Object.keys(o).sort()`. -/
def sortedKeys (o : JObj) : List String := (o.map Prod.fst).foldr insertSorted []

/-- The JS-object form of a validated `CustomizationConfig`: the three
sections in the insertion order `validateConfig` produces, present only when
defined. -/
def custToJObj (c : CustomizationConfig) : JObj :=
  (match c.toolAliases with
   | some aliases => [("toolAliases", JValue.obj (aliases.map fun kv => (kv.1, .str kv.2)))]
   | none => []) ++
  (match c.predefinedParameters with
   | some pp =>
       [("predefinedParameters", JValue.obj
         ((match pp.global with
           | some g => [("global", JValue.obj g)]
           | none => []) ++
          (match pp.endpoints with
           | some eps => [("endpoints", JValue.obj (eps.map fun kv => (kv.1, JValue.obj kv.2)))]
           | none => [])))]
   | none => []) ++
  (match c.authenticationOverrides with
   | some overrides =>
       [("authenticationOverrides", JValue.arr (overrides.map fun o =>
         JValue.obj [("endpoint", .str o.endpoint), ("credentials", .obj o.credentials)]))]
   | none => [])

/-- Source `generateCombinedHash`, up to the final SHA-256 digest: the exact string
fed to the digest.  Equal strings give equal digests, so every hash equality
proved below holds for the real hash as well. -/
def generateCombinedHash (parsed : ParsedDefinition) (customization : CustomizationConfig) :
    String :=
  let cust := custToJObj customization
  let combined : JObj :=
    [("parsed", .str parsed.hash),
     ("customization", .str (jstringify (some (sortedKeys cust)) (.obj cust)))]
  jstringify none (.obj combined)

/-! ### Association-list lemmas -/

theorem lookup_objSet_self (o : JObj) (k : String) (v : JValue) :
    (objSet o k v).lookup k = some v := by
  induction o with
  | nil => simp [objSet, List.lookup_cons]
  | cons kv rest ih =>
      obtain ⟨k', v'⟩ := kv
      by_cases h : k' = k
      · simp [objSet, h, List.lookup_cons]
      · simp [objSet, h, List.lookup_cons, beq_false_of_ne (Ne.symm h), ih]

theorem lookup_objSet_ne (o : JObj) (k' k : String) (v : JValue) (h : k' ≠ k) :
    (objSet o k' v).lookup k = o.lookup k := by
  induction o with
  | nil => simp [objSet, List.lookup_cons, beq_false_of_ne (Ne.symm h)]
  | cons kv rest ih =>
      obtain ⟨k0, v0⟩ := kv
      by_cases h0 : k0 = k'
      · subst h0
        simp [objSet, List.lookup_cons, beq_false_of_ne (Ne.symm h), beq_false_of_ne h]
      · by_cases h1 : k0 = k
        · subst h1
          simp [objSet, h0, List.lookup_cons]
        · simp [objSet, h0, List.lookup_cons, beq_false_of_ne (Ne.symm h1), ih]

/-- Folding `objSet` over entries whose keys avoid `k` leaves `lookup k`
unchanged. -/
theorem lookup_foldl_objSet_not_mem (l : JObj) (acc : JObj) (k : String)
    (h : k ∉ l.map Prod.fst) :
    (l.foldl (fun acc kv => objSet acc kv.1 kv.2) acc).lookup k = acc.lookup k := by
  induction l generalizing acc with
  | nil => simp
  | cons kv rest ih =>
      obtain ⟨k0, v0⟩ := kv
      simp only [List.map_cons, List.mem_cons] at h
      push_neg at h
      simp only [List.foldl_cons]
      rw [ih _ h.2, lookup_objSet_ne _ _ _ _ h.1.symm]

/-- With duplicate-free keys, a key found in `b` keeps its `b` value through
`mergeObj a b`. -/
theorem lookup_mergeObj_right (a b : JObj) (k : String) (v : JValue)
    (hnd : (b.map Prod.fst).Nodup) (h : b.lookup k = some v) :
    (mergeObj a b).lookup k = some v := by
  induction b generalizing a with
  | nil => simp [List.lookup] at h
  | cons kv rest ih =>
      obtain ⟨k0, v0⟩ := kv
      simp only [List.map_cons, List.nodup_cons] at hnd
      by_cases h0 : k0 = k
      · subst h0
        simp only [List.lookup_cons, beq_self_eq_true, if_pos] at h
        simp only [mergeObj, List.foldl_cons]
        rw [lookup_foldl_objSet_not_mem rest (objSet a k0 v0) k0 hnd.1,
          lookup_objSet_self]
        exact h
      · have hk : (k == k0) = false := beq_false_of_ne (Ne.symm h0)
        simp only [List.lookup_cons, hk, if_false] at h
        simp only [mergeObj, List.foldl_cons] at *
        exact ih (objSet a k0 v0) hnd.2 h

/-- A key absent from `b` keeps its `a` value through `mergeObj a b`. -/
theorem lookup_mergeObj_left (a b : JObj) (k : String)
    (h : b.lookup k = none) : (mergeObj a b).lookup k = a.lookup k := by
  induction b generalizing a with
  | nil => simp [mergeObj]
  | cons kv rest ih =>
      obtain ⟨k0, v0⟩ := kv
      by_cases h0 : k0 = k
      · subst h0
        simp [List.lookup_cons] at h
      · have hk : (k == k0) = false := beq_false_of_ne (Ne.symm h0)
        simp only [List.lookup_cons, hk, if_false] at h
        simp only [mergeObj, List.foldl_cons] at *
        rw [ih (objSet a k0 v0) h, lookup_objSet_ne _ _ _ _ h0]

theorem mem_sSet_self (o : List (String × String)) (k v : String) :
    (k, v) ∈ sSet o k v := by
  induction o with
  | nil => simp [sSet]
  | cons kv rest ih =>
      obtain ⟨k', v'⟩ := kv
      by_cases h : k' = k
      · simp [sSet, h]
      · simp [sSet, h]
        right
        exact ih

theorem lookup_sSet_self (o : List (String × String)) (k v : String) :
    (sSet o k v).lookup k = some v := by
  induction o with
  | nil => simp [sSet, List.lookup_cons]
  | cons kv rest ih =>
      obtain ⟨k', v'⟩ := kv
      by_cases h : k' = k
      · simp [sSet, h, List.lookup_cons]
      · simp [sSet, h, List.lookup_cons, beq_false_of_ne (Ne.symm h), ih]

/-- Source `Except` failure test. -/
def isErr {ε α : Type} : Except ε α → Bool
  | .error _ => true
  | .ok _ => false

/-! ### Claim C1 -/

/-- The parsed definition and the two customizations of the C1 failing
input: identical source hash, customizations differing only in a nested
predefined-parameter value. -/
def c1Parsed : ParsedDefinition := { servers := [], paths := [], hash := "h" }

def c1CustA : CustomizationConfig :=
  { predefinedParameters := some { global := some [("page", .num 1)] } }

def c1CustB : CustomizationConfig :=
  { predefinedParameters := some { global := some [("page", .num 2)] } }

/-- Claim C1: the claim says the combined hash differs whenever the
customization content differs.  It does not: the sorted top-level key list
is passed to `JSON.stringify` as an *array replacer*, which filters keys at
every nesting level, so the serialization — and hence the SHA-256 input —
drops all nested customization content.  Two customizations that differ
only inside `predefinedParameters.global` produce identical hash preimages
(both serialize the customization as `{"predefinedParameters":{}}`). -/
theorem c1_nested_customization_hash_collision :
    c1CustA ≠ c1CustB ∧
    generateCombinedHash c1Parsed c1CustA = generateCombinedHash c1Parsed c1CustB := by
  exact ⟨by decide, rfl⟩

/-! ### Claim C5 -/

def c5Req : HttpRequest := { method := "GET", url := "https://api.example/x" }

/-- An axios rejection carrying a full HTTP 404 response (status, headers,
body): the transport-level view of an error-status response. -/
def c5Transport : HttpRequest → AxiosOutcome := fun _ =>
  .rejectedResponse 404 "Not Found" [("x-request-id", .str "1")] (.str "nope")
    "Request failed with status code 404"

/-- Claim C5 counterexample: the claim says a received response, even 4xx,
yields a normal result carrying the raw status, headers and body.  For an
error status the result is indeed normal (not thrown) and carries the
status and body, but the response *headers* are dropped: the error-branch
result object has no `headers` key at all. -/
theorem c5_error_result_drops_headers :
    executeHttpRequest c5Req c5Transport =
      .ok (.obj [("error", .bool true), ("status", .num 404),
        ("statusText", .str "Not Found"),
        ("message", .str "Request failed with status code 404"),
        ("data", .str "nope")]) ∧
    (match executeHttpRequest c5Req c5Transport with
     | .ok (.obj fields) => fields.lookup "headers"
     | _ => some .null) = none := by
  exact ⟨rfl, rfl⟩

/-- Claim C5 (amended): `executeTool`'s HTTP layer throws `NetworkError`
exactly when the transport made a request and received no response (a
pre-request setup failure throws `ApiRequestFailed` instead); any received
response yields a normal result carrying the raw status and body — the
response headers are included only in the resolved (status-accepted)
branch, while the error-status branch carries status, statusText, message
and body but no headers. -/
theorem c5_network_error_iff_no_response (request : HttpRequest)
    (transport : HttpRequest → AxiosOutcome) :
    ((∃ e, executeHttpRequest request transport = .error e ∧ e.type = .networkError) ↔
      (∃ m, transport request = .rejectedNoResponse m)) ∧
    (∀ s st h d, transport request = .resolved s st h d →
      executeHttpRequest request transport =
        .ok (.obj [("status", .num s), ("statusText", .str st),
          ("headers", .obj h), ("data", d)])) ∧
    (∀ s st h d m, transport request = .rejectedResponse s st h d m →
      executeHttpRequest request transport =
        .ok (.obj [("error", .bool true), ("status", .num s), ("statusText", .str st),
          ("message", .str m), ("data", d)])) := by
  refine ⟨?_, ?_, ?_⟩
  · rcases htr : transport request with ⟨s, st, h, d⟩ | ⟨s, st, h, d, m⟩ | m | m <;>
      simp [executeHttpRequest, htr]
  · intro s st h d htr
    simp [executeHttpRequest, htr]
  · intro s st h d m htr
    simp [executeHttpRequest, htr]

/-- Claim C5 witness: the amended theorem applied at a concrete resolved
outcome. -/
theorem c5_witness :
    executeHttpRequest c5Req (fun _ => .resolved 200 "OK" [] .null) =
      .ok (.obj [("status", .num 200), ("statusText", .str "OK"),
        ("headers", .obj []), ("data", .null)]) :=
  (c5_network_error_iff_no_response c5Req (fun _ => .resolved 200 "OK" [] .null)).2.1
    200 "OK" [] .null rfl

/-! ### Claim C7 -/

def c7Store : HeaderStore := [[("X-Init", "1")]]

def c7Req : HttpRequestRef := { method := "GET", url := "https://api.example/u", headersRef := 0 }

def c7Creds : JObj := [("username", .str "u"), ("password", .str "p")]

/-- Claim C7: the claim says `applyAuth` is pure and leaves the input
request, including its headers map, unchanged.  The source's
`{ ...request }` is a *shallow* copy: the returned request shares the
headers object with the input, and `applyBasicAuth` writes `Authorization`
through that shared reference.  At the failing input the input request's
headers object (store slot 0, which had no `Authorization`) gains the
`Authorization` entry, while the returned request still references the same
slot. -/
theorem c7_applyauth_mutates_input_headers :
    (c7Store.getD c7Req.headersRef []).lookup "Authorization" = none ∧
    (applyAuthHeapBasic c7Store c7Req c7Creds).toOption.map
      (fun r => (r.2.headersRef, ((r.1.getD c7Req.headersRef []).lookup "Authorization").isSome))
      = some (c7Req.headersRef, true) := by
  exact ⟨rfl, rfl⟩

/-! ### Claim C6 -/

def c6Req : HttpRequest := { method := "GET", url := "https://api.example/y" }

/-- Claim C6 counterexample: the claim says `applyAuth` fails only when the
type is unsupported or a required credential field is *absent*.  Here both
`username` and `password` are present (and non-null), yet the call fails:
the source tests JS truthiness (`!username`), so an empty-string credential
is rejected too. -/
theorem c6_empty_username_rejected :
    (c6Req.headers, List.lookup "username" [("username", JValue.str ""), ("password", JValue.str "x")]) =
      ([], some (.str "")) ∧
    applyAuth c6Req "basic" [("username", .str ""), ("password", .str "x")] =
      .error ⟨.authenticationFailed, "Basic authentication requires username and password", []⟩ := by
  exact ⟨rfl, rfl⟩

/-- Claim C6 (amended): `applyAuth` fails with `AuthenticationFailed`
exactly when the type is none of `basic`/`bearer`/`apiKey`, or a required
credential field is absent **or falsy** (empty string, null, 0, false) —
basic: username and password; bearer: token; apiKey: key — or, for
`apiKey`, the `in` location (defaulting to `header`) is none of
header/query/cookie.  Every failure carries the `AuthenticationFailed`
type, and every success sets the corresponding header, query or cookie
entry. -/
theorem c6_auth_error_characterization (request : HttpRequest) (t : String) (creds : JObj) :
    (isErr (applyAuth request t creds) = true ↔
      ((t ≠ "basic" ∧ t ≠ "bearer" ∧ t ≠ "apiKey") ∨
       (t = "basic" ∧ (truthy (creds.lookup "username") = false ∨
         truthy (creds.lookup "password") = false)) ∨
       (t = "bearer" ∧ truthy (creds.lookup "token") = false) ∨
       (t = "apiKey" ∧ (truthy (creds.lookup "key") = false ∨
         ((creds.lookup "in").getD (.str "header") ≠ .str "header" ∧
          (creds.lookup "in").getD (.str "header") ≠ .str "query" ∧
          (creds.lookup "in").getD (.str "header") ≠ .str "cookie"))))) ∧
    (∀ e, applyAuth request t creds = .error e → e.type = .authenticationFailed) ∧
    (∀ r, applyAuth request t creds = .ok r → t = "basic" →
      r.headers.lookup "Authorization" =
        some ("Basic " ++ base64Str (jsString ((creds.lookup "username").getD .null) ++ ":" ++
          jsString ((creds.lookup "password").getD .null)))) ∧
    (∀ r, applyAuth request t creds = .ok r → t = "bearer" →
      r.headers.lookup "Authorization" =
        some ("Bearer " ++ jsString ((creds.lookup "token").getD .null))) ∧
    (∀ r, applyAuth request t creds = .ok r → t = "apiKey" →
      (((creds.lookup "in").getD (.str "header") = .str "header" →
        r.headers.lookup (jsString ((creds.lookup "name").getD (.str "X-API-Key"))) =
          some (jsString ((creds.lookup "key").getD .null))) ∧
       ((creds.lookup "in").getD (.str "header") = .str "query" →
        (r.params.getD []).lookup (jsString ((creds.lookup "name").getD (.str "X-API-Key"))) =
          some ((creds.lookup "key").getD .null)) ∧
       ((creds.lookup "in").getD (.str "header") = .str "cookie" →
        (r.headers.lookup "Cookie").isSome = true))) := by
  by_cases hb : t = "basic"
  · subst hb
    by_cases hc : truthy (creds.lookup "username") = false ∨
        truthy (creds.lookup "password") = false
    · refine ⟨?_, ?_, ?_, ?_, ?_⟩ <;>
        simp_all [applyAuth, applyBasicAuth, isErr]
    · refine ⟨?_, ?_, ?_, ?_, ?_⟩ <;>
        simp_all [applyAuth, applyBasicAuth, isErr, lookup_sSet_self]
  · by_cases hr : t = "bearer"
    · subst hr
      by_cases hc : truthy (creds.lookup "token") = false
      · refine ⟨?_, ?_, ?_, ?_, ?_⟩ <;>
          simp_all [applyAuth, applyBearerAuth, isErr]
      · refine ⟨?_, ?_, ?_, ?_, ?_⟩ <;>
          simp_all [applyAuth, applyBearerAuth, isErr, lookup_sSet_self]
    · by_cases hk : t = "apiKey"
      · subst hk
        by_cases hc : truthy (creds.lookup "key") = false
        · refine ⟨?_, ?_, ?_, ?_, ?_⟩ <;>
            simp_all [applyAuth, applyApiKeyAuth, isErr]
        · by_cases hl1 : (creds.lookup "in").getD (.str "header") = .str "header"
          · refine ⟨?_, ?_, ?_, ?_, ?_⟩ <;>
              simp_all [applyAuth, applyApiKeyAuth, isErr, lookup_sSet_self]
          · by_cases hl2 : (creds.lookup "in").getD (.str "header") = .str "query"
            · refine ⟨?_, ?_, ?_, ?_, ?_⟩ <;>
                simp_all [applyAuth, applyApiKeyAuth, isErr, lookup_objSet_self]
            · by_cases hl3 : (creds.lookup "in").getD (.str "header") = .str "cookie"
              · refine ⟨?_, ?_, ?_, ?_, ?_⟩ <;>
                  (simp_all [applyAuth, applyApiKeyAuth, isErr, lookup_sSet_self];
                   try exact ⟨_, mem_sSet_self _ _ _⟩)
              · refine ⟨?_, ?_, ?_, ?_, ?_⟩ <;>
                  simp_all [applyAuth, applyApiKeyAuth, isErr]
      · refine ⟨?_, ?_, ?_, ?_, ?_⟩ <;>
          simp_all [applyAuth, isErr]

/-- Claim C6 witness: the characterization applied with complete bearer
credentials — the call succeeds (is not an error) and sets the
Authorization header. -/
theorem c6_witness :
    isErr (applyAuth c6Req "bearer" [("token", .str "tok")]) = false := by
  have h := (c6_auth_error_characterization c6Req "bearer" [("token", .str "tok")]).1
  by_contra hne
  have ht : isErr (applyAuth c6Req "bearer" [("token", .str "tok")]) = true := by
    revert hne
    cases isErr (applyAuth c6Req "bearer" [("token", .str "tok")])
    · simp
    · simp
  exact absurd (h.mp ht) (by decide)

/-! ### Claim C9 -/

theorem findClose_append_close (l : List Char) (h : '}' ∉ l) :
    findClose (l ++ ['}']) = some (l, []) := by
  induction l with
  | nil => simp [findClose]
  | cons c rest ih =>
      simp only [List.mem_cons] at h
      push_neg at h
      show findClose (c :: (rest ++ ['}'])) = some (c :: rest, [])
      rw [findClose, if_neg (Ne.symm h.1), ih h.2]

/-- A set, non-empty environment value replaces its placeholder. -/
theorem resolveString_placeholder_set (env : Env) (name v : String)
    (hnc : '}' ∉ name.data) (hne : name ≠ "") (hv : env name = some v) (hvne : v ≠ "") :
    resolveString env ("$\x7b" ++ name ++ "\x7d") = v := by
  obtain ⟨l⟩ := name
  have hl : l ≠ [] := fun hl0 => hne (by rw [hl0])
  have hdata : ("$\x7b" ++ (⟨l⟩ : String) ++ "\x7d").data = '$' :: '{' :: (l ++ ['}']) := rfl
  have hlen : ("$\x7b" ++ (⟨l⟩ : String) ++ "\x7d").data.length = (l.length + 2) + 1 := by
    rw [hdata]; simp
  unfold resolveString
  rw [hlen, hdata]
  show (⟨replacePHF env (l.length + 2 + 1) ('$' :: '{' :: (l ++ ['}']))⟩ : String) = v
  rw [replacePHF]
  simp only [if_pos, findClose_append_close l hnc]
  have hie : l.isEmpty = false := by
    cases l with
    | nil => exact absurd rfl hl
    | cons a b => rfl
  rw [hie]
  simp only [Bool.false_eq_true, if_neg, envApply, hv]
  rw [if_neg hvne]
  show (⟨v.data ++ replacePHF env (l.length + 2) []⟩ : String) = v
  rw [replacePHF]
  simp

/-- An unset — or set-but-empty — environment value leaves its placeholder
verbatim. -/
theorem resolveString_placeholder_unset (env : Env) (name : String)
    (hnc : '}' ∉ name.data) (hne : name ≠ "")
    (hv : env name = none ∨ env name = some "") :
    resolveString env ("$\x7b" ++ name ++ "\x7d") = "$\x7b" ++ name ++ "\x7d" := by
  obtain ⟨l⟩ := name
  have hl : l ≠ [] := fun hl0 => hne (by rw [hl0])
  have hdata : ("$\x7b" ++ (⟨l⟩ : String) ++ "\x7d").data = '$' :: '{' :: (l ++ ['}']) := rfl
  have hlen : ("$\x7b" ++ (⟨l⟩ : String) ++ "\x7d").data.length = (l.length + 2) + 1 := by
    rw [hdata]; simp
  unfold resolveString
  rw [hlen, hdata]
  show (⟨replacePHF env (l.length + 2 + 1) ('$' :: '{' :: (l ++ ['}']))⟩ : String) =
    "$\x7b" ++ (⟨l⟩ : String) ++ "\x7d"
  rw [replacePHF]
  simp only [if_pos, findClose_append_close l hnc]
  have hie : l.isEmpty = false := by
    cases l with
    | nil => exact absurd rfl hl
    | cons a b => rfl
  rw [hie]
  apply String.ext
  rcases hv with hv | hv <;>
    simp [envApply, hv, replacePHF, hdata]

def c9Env : Env := fun n => if n = "TOKEN" then some "" else none

def c9Cfg : CustomizationConfig :=
  { authenticationOverrides := some [⟨"*", [("token", .str "${TOKEN}")]⟩] }

/-- Claim C9 counterexample: the claim says a placeholder is replaced with
the environment value whenever the variable is *set*.  `TOKEN` is set (to
the empty string), yet the config comes back unchanged: the source's
`process.env[envVar] || match` is a truthiness test, so a set-but-empty
variable leaves the placeholder verbatim. -/
theorem c9_empty_env_value_left_verbatim :
    c9Env "TOKEN" = some "" ∧
    resolveEnvironmentVariables c9Env c9Cfg = c9Cfg := by
  exact ⟨rfl, rfl⟩

/-- Claim C9 (amended): `resolveEnvironmentVariables` rewrites exactly the
string values (recursively) inside each authentication override's
`credentials` object and inside the predefined parameters (global and
per-endpoint maps); tool aliases and the overrides' `endpoint` fields are
untouched.  A `${NAME}` placeholder becomes the environment value when
`NAME` is set to a non-empty string and stays verbatim when `NAME` is unset
*or set to the empty string*. -/
theorem c9_resolution_characterization (env : Env) (config : CustomizationConfig) :
    ((resolveEnvironmentVariables env config).toolAliases = config.toolAliases ∧
     (resolveEnvironmentVariables env config).authenticationOverrides =
       config.authenticationOverrides.map (fun overrides =>
         overrides.map fun o => ⟨o.endpoint, resolveValObj env o.credentials⟩) ∧
     (resolveEnvironmentVariables env config).predefinedParameters =
       config.predefinedParameters.map fun pp =>
         ⟨pp.global.map (resolveValObj env),
          pp.endpoints.map fun eps => eps.map fun kv => (kv.1, resolveValObj env kv.2)⟩) ∧
    (∀ k s o, resolveVal env (.str s) = .str (resolveString env s) ∧
      resolveValObj env ((k, JValue.str s) :: o) =
        (k, JValue.str (resolveString env s)) :: resolveValObj env o) ∧
    (∀ name v : String, '}' ∉ name.data → name ≠ "" → env name = some v → v ≠ "" →
      resolveString env ("$\x7b" ++ name ++ "\x7d") = v) ∧
    (∀ name : String, '}' ∉ name.data → name ≠ "" →
      (env name = none ∨ env name = some "") →
      resolveString env ("$\x7b" ++ name ++ "\x7d") = "$\x7b" ++ name ++ "\x7d") := by
  refine ⟨⟨rfl, rfl, rfl⟩, ?_, ?_, ?_⟩
  · intro k s o
    exact ⟨rfl, rfl⟩
  · intro name v hnc hne hv hvne
    exact resolveString_placeholder_set env name v hnc hne hv hvne
  · intro name hnc hne hv
    exact resolveString_placeholder_unset env name hnc hne hv

/-- Claim C9 witness: the characterization applied at a concrete config and
environment — `${HOST}` (set, non-empty) resolves to the value while the
structure is preserved. -/
theorem c9_witness :
    resolveString (fun n => if n = "HOST" then some "h.example" else none) "${HOST}" =
      "h.example" ∧
    (resolveEnvironmentVariables (fun n => if n = "HOST" then some "h.example" else none)
      c9Cfg).toolAliases = c9Cfg.toolAliases := by
  constructor
  · exact (c9_resolution_characterization
      (fun n => if n = "HOST" then some "h.example" else none) c9Cfg).2.2.1 "HOST" "h.example"
      (by decide) (by decide) rfl (by decide)
  · exact (c9_resolution_characterization
      (fun n => if n = "HOST" then some "h.example" else none) c9Cfg).1.1

/-! ### Claims C2 and C3 -/

/-- Folding the query-collection step over names avoiding `k` leaves
`lookup k` unchanged. -/
theorem lookup_collect_not_mem (m : JObj) (k : String) :
    ∀ (names : List String) (acc : JObj), k ∉ names →
      (names.foldl (fun acc name =>
        match m.lookup name with
        | some w => objSet acc name w
        | none => acc) acc).lookup k = acc.lookup k := by
  intro names
  induction names with
  | nil => intro acc _; simp
  | cons n rest ih =>
      intro acc hk
      simp only [List.mem_cons] at hk
      push_neg at hk
      simp only [List.foldl_cons]
      rw [ih _ hk.2]
      rcases hmn : m.lookup n with _ | w
      · rfl
      · exact lookup_objSet_ne _ _ _ _ (Ne.symm hk.1)

/-- A name in the query list whose merged value is defined ends up in the
collected query object with that value. -/
theorem lookup_collect_mem (m : JObj) (k : String) (v : JValue)
    (hv : m.lookup k = some v) :
    ∀ (names : List String) (acc : JObj), k ∈ names →
      (names.foldl (fun acc name =>
        match m.lookup name with
        | some w => objSet acc name w
        | none => acc) acc).lookup k = some v := by
  intro names
  induction names with
  | nil => intro acc hk; simp at hk
  | cons n rest ih =>
      intro acc hk
      simp only [List.foldl_cons]
      by_cases hn : n = k
      · rw [hn]
        by_cases hkr : k ∈ rest
        · exact ih _ hkr
        · rw [lookup_collect_not_mem m k rest _ hkr, hv, lookup_objSet_self]
      · have hkr : k ∈ rest := by
          rcases List.mem_cons.mp hk with h | h
          · exact absurd h.symm hn
          · exact h
        exact ih _ hkr

theorem lookup_ne_nil {β : Type} (l : List (String × β)) (k : String) (b : β)
    (h : l.lookup k = some b) : l ≠ [] := by
  intro h0
  subst h0
  simp at h

/-- Claim C2: a tool call whose arguments leave a required field undefined
or null fails with a `ParameterValidation` error naming that field, and the
transport is never invoked (the issued-request trace is empty). -/
theorem c2_validation_blocks_network (config : LibraryConfig)
    (definitions : List EnrichedDefinition) (toolName : String) (params : JObj)
    (transport : HttpRequest → AxiosOutcome) (tool : ToolDefinition) (r : String)
    (hfind : findToolDefinition definitions toolName = some tool)
    (hreq : r ∈ tool.inputSchema.required)
    (hmiss : params.lookup r = none ∨ params.lookup r = some .null) :
    (executeTool config definitions toolName params transport).2 = [] ∧
    ∃ e, (executeTool config definitions toolName params transport).1 = .error e ∧
      e.type = .parameterValidation ∧
      ("Missing required parameter: " ++ r) ∈ e.details := by
  have hmem : ("Missing required parameter: " ++ r) ∈
      (validateParameters tool params).errors := by
    simp only [validateParameters]
    exact List.mem_filterMap.mpr ⟨r, hreq, by rw [if_pos hmiss]⟩
  have hvalid : (validateParameters tool params).valid = false := by
    simp only [validateParameters] at hmem ⊢
    rcases hl : tool.inputSchema.required.filterMap _ with _ | ⟨a, as⟩
    · rw [hl] at hmem; simp at hmem
    · simp
  simp only [executeTool, hfind]
  rw [if_pos hvalid]
  exact ⟨rfl, ⟨_, rfl, rfl, hmem⟩⟩

def c2Tool : ToolDefinition :=
  { name := "get-thing"
    description := "d"
    method := "GET"
    endpoint := ⟨"/thing", "https://api.example/thing"⟩
    inputSchema := { properties := [("q", .obj [])], required := ["q"] }
    parameterMapping := { queryParams := ["q"] } }

def c2Defs : List EnrichedDefinition :=
  [{ hash := "h", serverUrl := "https://api.example", tools := [c2Tool],
     metadata := ⟨"s", none, "t"⟩ }]

/-- Claim C2 witness: calling the concrete tool with no arguments issues no
request and yields the validation error naming `q`. -/
theorem c2_witness :
    (executeTool {} c2Defs "get-thing" [] (fun _ => .resolved 200 "OK" [] .null)).2 = [] ∧
    ∃ e, (executeTool {} c2Defs "get-thing" [] (fun _ => .resolved 200 "OK" [] .null)).1 =
        .error e ∧
      e.type = .parameterValidation ∧
      ("Missing required parameter: " ++ "q") ∈ e.details :=
  c2_validation_blocks_network {} c2Defs "get-thing" []
    (fun _ => .resolved 200 "OK" [] .null) c2Tool "q" (by decide) (by decide) (Or.inl rfl)

/-- Claim C3: the merged parameter map `{ ...predefinedParams, ...params }`
that `buildHttpRequest` feeds every location takes the supplied argument's
value on every key collision, falls back to the predefined value only for
keys the caller did not supply, and a supplied query-mapped value reaches
the built request's query parameters untouched. -/
theorem c3_supplied_args_override_predefined (config : LibraryConfig)
    (tool : ToolDefinition) (params : JObj) (k : String) (v : JValue)
    (hnd : (params.map Prod.fst).Nodup) :
    (params.lookup k = some v →
      (mergeObj tool.predefinedParams params).lookup k = some v) ∧
    (params.lookup k = none →
      (mergeObj tool.predefinedParams params).lookup k = tool.predefinedParams.lookup k) ∧
    (params.lookup k = some v → k ∈ tool.parameterMapping.queryParams →
      ((buildHttpRequest config tool params).params.getD []).lookup k = some v) := by
  refine ⟨fun h => lookup_mergeObj_right _ _ _ _ hnd h,
    fun h => lookup_mergeObj_left _ _ _ h, fun h hq => ?_⟩
  have hall : (mergeObj tool.predefinedParams params).lookup k = some v :=
    lookup_mergeObj_right _ _ _ _ hnd h
  have hcoll := lookup_collect_mem (mergeObj tool.predefinedParams params) k v hall
    tool.parameterMapping.queryParams [] hq
  have hne := lookup_ne_nil _ _ _ hcoll
  simp only [buildHttpRequest]
  rw [if_neg (by simpa using hne)]
  simpa using hcoll

def c3Tool : ToolDefinition :=
  { name := "get-thing"
    description := "d"
    method := "GET"
    endpoint := ⟨"/thing", "https://api.example/thing"⟩
    inputSchema := { properties := [("page", .obj [])] }
    parameterMapping := { queryParams := ["page"] }
    predefinedParams := [("page", .num 1)] }

/-- Claim C3 witness: a supplied `page` overrides the predefined `page` all
the way into the built request's query parameters. -/
theorem c3_witness :
    (mergeObj c3Tool.predefinedParams [("page", JValue.num 2)]).lookup "page" =
      some (.num 2) ∧
    ((buildHttpRequest {} c3Tool [("page", JValue.num 2)]).params.getD []).lookup "page" =
      some (.num 2) := by
  have h := c3_supplied_args_override_predefined {} c3Tool [("page", JValue.num 2)]
    "page" (.num 2) (by decide)
  exact ⟨h.1 rfl, h.2.2 rfl (by decide)⟩

/-! ### Claim C10 -/

/-- Source `collapseDashes` keeps the head of a nonempty list. -/
theorem collapseDashes_cons : ∀ (rest : List Char) (b : Char),
    ∃ t, collapseDashes (b :: rest) = b :: t := by
  intro rest
  induction rest with
  | nil => intro b; exact ⟨[], rfl⟩
  | cons c r ih =>
      intro b
      rw [collapseDashes]
      by_cases hbc : b = '-' ∧ c = '-'
      · rw [if_pos hbc]
        obtain ⟨t, ht⟩ := ih c
        exact ⟨t, by rw [ht, hbc.1, hbc.2]⟩
      · rw [if_neg hbc]
        exact ⟨collapseDashes (c :: r), rfl⟩

theorem collapseDashes_all (p : Char → Bool) : ∀ l : List Char,
    l.all p = true → (collapseDashes l).all p = true := by
  intro l
  induction l with
  | nil => intro h; exact h
  | cons a l' ih =>
      cases l' with
      | nil => intro h; exact h
      | cons b rest =>
          intro h
          simp only [List.all_cons, Bool.and_eq_true] at h
          rw [collapseDashes]
          by_cases hab : a = '-' ∧ b = '-'
          · rw [if_pos hab]
            exact ih (by simp [h.2.1, h.2.2])
          · rw [if_neg hab]
            simp only [List.all_cons, Bool.and_eq_true]
            exact ⟨h.1, ih (by simp [h.2.1, h.2.2])⟩

/-- After `collapseDashes` no two adjacent characters are both dashes. -/
theorem collapseDashes_chain : ∀ l : List Char,
    (collapseDashes l).Chain' (fun a b => ¬(a = '-' ∧ b = '-')) := by
  intro l
  induction l with
  | nil => simp [collapseDashes]
  | cons a l' ih =>
      cases l' with
      | nil => simp [collapseDashes]
      | cons b rest =>
          rw [collapseDashes]
          by_cases hab : a = '-' ∧ b = '-'
          · rw [if_pos hab]
            exact ih
          · rw [if_neg hab]
            obtain ⟨t, ht⟩ := collapseDashes_cons rest b
            rw [ht]
            rw [List.chain'_cons]
            exact ⟨hab, ht ▸ ih⟩

theorem dropTrailing_eq_rdropWhile (t : Char) (l : List Char) :
    dropTrailing t l = List.rdropWhile (· = t) l := rfl

theorem stripDashes_head_ne (l : List Char) : (stripDashes l).head? ≠ some '-' := by
  intro h
  rcases hsd : stripDashes l with _ | ⟨a, tl⟩
  · rw [hsd] at h; simp at h
  · rw [hsd] at h
    simp only [List.head?_cons, Option.some.injEq] at h
    subst h
    have hpre : stripDashes l <+: dropLeading '-' l := by
      rw [stripDashes, dropTrailing_eq_rdropWhile]
      exact List.rdropWhile_prefix _ _
    rw [hsd] at hpre
    obtain ⟨r, hr⟩ := hpre
    have hne : (dropLeading '-' l) ≠ [] := by
      rw [← hr]; simp
    have hhead : (dropLeading '-' l).head hne = '-' := by
      have : dropLeading '-' l = '-' :: (tl ++ r) := by rw [← hr]; rfl
      simp [this]
    have hdw := List.head_dropWhile_not (fun c => decide (c = '-')) (l := l) hne
    have hdw2 : ¬((dropLeading '-' l).head hne = '-') := by simpa using hdw
    exact hdw2 hhead

theorem stripDashes_getLast_ne (l : List Char) : (stripDashes l).getLast? ≠ some '-' := by
  intro h
  rcases hne : stripDashes l with _ | ⟨a, tl⟩
  · rw [hne] at h; simp at h
  · have hne2 : stripDashes l ≠ [] := by rw [hne]; simp
    have hlast := List.getLast?_eq_getLast _ hne2
    rw [h] at hlast
    have hglast : (stripDashes l).getLast hne2 = '-' := by
      have h2 := hlast.symm
      simp only [Option.some.injEq] at h2
      exact h2
    have hnot := List.rdropWhile_last_not (fun c => decide (c = '-')) (dropLeading '-' l) hne2
    have hnot2 : ¬((stripDashes l).getLast hne2 = '-') := by simpa using hnot
    exact hnot2 hglast

theorem stripDashes_within (l : List Char) : stripDashes l <:+: l := by
  have h1 : stripDashes l <+: dropLeading '-' l := by
    rw [stripDashes, dropTrailing_eq_rdropWhile]
    exact List.rdropWhile_prefix _ _
  have h2 : dropLeading '-' l <:+ l := List.dropWhile_suffix _
  obtain ⟨r, hr⟩ := h1
  obtain ⟨t, ht⟩ := h2
  exact ⟨t, r, by rw [List.append_assoc, hr, ht]⟩

theorem stripDashes_subset (l : List Char) : ∀ x ∈ stripDashes l, x ∈ l := by
  obtain ⟨s, t, hst⟩ := stripDashes_within l
  intro x hx
  rw [← hst]
  exact List.mem_append.mpr (Or.inl (List.mem_append.mpr (Or.inr hx)))

/-- The full shape invariant established by `sanitizeToolName`: only
`[a-z0-9-]` characters, no edge dash, no adjacent dashes. -/
theorem sanitizeToolName_shape (name : String) :
    (sanitizeToolName name).data.all isToolNameChar = true ∧
    (sanitizeToolName name).data.head? ≠ some '-' ∧
    (sanitizeToolName name).data.getLast? ≠ some '-' ∧
    (sanitizeToolName name).data.Chain' (fun a b => ¬(a = '-' ∧ b = '-')) := by
  have hdata : (sanitizeToolName name).data =
      stripDashes (collapseDashes ((name.data.map lowerChar).filter isToolNameChar)) := rfl
  refine ⟨?_, ?_, ?_, ?_⟩
  · rw [hdata]
    have hall : ((name.data.map lowerChar).filter isToolNameChar).all isToolNameChar = true := by
      rw [List.all_eq_true]
      intro x hx
      exact List.of_mem_filter hx
    have hall2 := collapseDashes_all isToolNameChar _ hall
    rw [List.all_eq_true] at hall2 ⊢
    intro x hx
    exact hall2 x (stripDashes_subset _ x hx)
  · rw [hdata]; exact stripDashes_head_ne _
  · rw [hdata]; exact stripDashes_getLast_ne _
  · rw [hdata]
    exact List.Chain'.infix (collapseDashes_chain _) (stripDashes_within _)

/-- The alias table lookup used by `applyAlias`. -/
def aliasLookup (customization : CustomizationConfig) (toolName : String) : Option String :=
  match customization.toolAliases with
  | some aliases => aliases.lookup toolName
  | none => none

theorem applyAlias_of_lookup_none (customization : CustomizationConfig) (toolName : String)
    (h : aliasLookup customization toolName = none) :
    applyAlias customization toolName = toolName := by
  unfold aliasLookup at h
  unfold applyAlias
  rcases hta : customization.toolAliases with _ | aliases
  · rfl
  · simp only [hta] at h
    show (match aliases.lookup toolName with
      | some a => if a = "" then toolName else a
      | none => toolName) = toolName
    rw [h]

theorem applyAlias_of_lookup_some (customization : CustomizationConfig) (toolName a : String)
    (h : aliasLookup customization toolName = some a) (ha : a ≠ "") :
    applyAlias customization toolName = a := by
  unfold aliasLookup at h
  unfold applyAlias
  rcases hta : customization.toolAliases with _ | aliases
  · simp only [hta] at h
    simp at h
  · simp only [hta] at h
    show (match aliases.lookup toolName with
      | some a => if a = "" then toolName else a
      | none => toolName) = a
    rw [h]
    show (if a = "" then toolName else a) = a
    rw [if_neg ha]

/-- Claim C10: when an operation has no (truthy) operationId and its derived
name hits no alias, the generated tool name consists only of lowercase
letters, digits and dashes, with no leading/trailing dash and no two
adjacent dashes; a (truthy) operationId bypasses sanitization — used
verbatim when it hits no alias, and replaced verbatim by a (truthy) alias
value when it does. -/
theorem c10_tool_name_sanitization (customization : CustomizationConfig)
    (parsedPath : ParsedPath) :
    ((parsedPath.operationId = none ∨ parsedPath.operationId = some "") →
      aliasLookup customization (sanitizeToolName (derivedRawName parsedPath)) = none →
      ((generateToolName customization parsedPath).data.all isToolNameChar = true ∧
       (generateToolName customization parsedPath).data.head? ≠ some '-' ∧
       (generateToolName customization parsedPath).data.getLast? ≠ some '-' ∧
       (generateToolName customization parsedPath).data.Chain'
         (fun a b => ¬(a = '-' ∧ b = '-')))) ∧
    (∀ opId, parsedPath.operationId = some opId → opId ≠ "" →
      aliasLookup customization opId = none →
      generateToolName customization parsedPath = opId) ∧
    (∀ opId a, parsedPath.operationId = some opId → opId ≠ "" →
      aliasLookup customization opId = some a → a ≠ "" →
      generateToolName customization parsedPath = a) := by
  refine ⟨?_, ?_, ?_⟩
  · intro hop halias
    have hgen : generateToolName customization parsedPath =
        sanitizeToolName (derivedRawName parsedPath) := by
      rcases hop with hop | hop <;>
        rw [generateToolName, hop] <;>
        simp [applyAlias_of_lookup_none customization _ halias]
    rw [hgen]
    exact sanitizeToolName_shape _
  · intro opId hop hne halias
    rw [generateToolName, hop]
    simp only [if_neg hne]
    exact applyAlias_of_lookup_none customization opId halias
  · intro opId a hop hne halias ha
    rw [generateToolName, hop]
    simp only [if_neg hne]
    exact applyAlias_of_lookup_some customization opId a halias ha

/-- Claim C10 witness: applied to `GET /special-events/{eventId}` with no
customization — the generated name satisfies every shape conjunct. -/
theorem c10_witness :
    (generateToolName {} { path := "/special-events/{eventId}", method := "GET" }).data.all
        isToolNameChar = true ∧
    (generateToolName {} { path := "/special-events/{eventId}", method := "GET" }).data.head? ≠
        some '-' ∧
    (generateToolName {} { path := "/special-events/{eventId}", method := "GET" }).data.getLast? ≠
        some '-' ∧
    (generateToolName {} { path := "/special-events/{eventId}", method := "GET" }).data.Chain'
        (fun a b => ¬(a = '-' ∧ b = '-')) :=
  (c10_tool_name_sanitization {} { path := "/special-events/{eventId}", method := "GET" }).1
    (Or.inl rfl) rfl

/-! ### Claim C4 -/

def c4Parsed : ParsedDefinition :=
  { servers := ["https://api.example"]
    paths := [{ path := "/a/b", method := "get" }, { path := "/a-b", method := "get" }]
    hash := "h" }

/-- Claim C4 counterexample: the enricher produces one tool per parsed path
with no deduplication, and distinct paths can derive the same name — `GET
/a/b` and `GET /a-b` both become `get-a-b`, so the tools list carries a
duplicate name. -/
theorem c4_duplicate_names_counterexample :
    ¬ ((generateEnrichedDefinition c4Parsed {} "src.yaml" none "h" "t").tools.map
        (fun t => t.name)).Nodup := by
  decide

/-- Claim C4 (amended): the enriched definition's tool names are exactly
`generateToolName` mapped over the parsed paths (one tool per path, no
deduplication), so they are pairwise distinct whenever the generator
assigns distinct names to the parsed paths — and only then. -/
theorem c4_names_unique_iff_generator_injective (parsed : ParsedDefinition)
    (customization : CustomizationConfig) (sourceFile : String) (customFile : Option String)
    (hash generatedAt : String) :
    ((generateEnrichedDefinition parsed customization sourceFile customFile hash
        generatedAt).tools.map (fun t => t.name)) =
      parsed.paths.map (generateToolName customization) ∧
    ((parsed.paths.map (generateToolName customization)).Nodup →
      ((generateEnrichedDefinition parsed customization sourceFile customFile hash
          generatedAt).tools.map (fun t => t.name)).Nodup) := by
  have hmap : ((generateEnrichedDefinition parsed customization sourceFile customFile hash
      generatedAt).tools.map (fun t => t.name)) =
      parsed.paths.map (generateToolName customization) := by
    show ((parsed.paths.map (buildTool customization (parsed.servers.headD ""))).map
      (fun t => t.name)) = parsed.paths.map (generateToolName customization)
    rw [List.map_map]
    rfl
  exact ⟨hmap, fun h => hmap ▸ h⟩

def c4ParsedOk : ParsedDefinition :=
  { servers := ["https://api.example"]
    paths := [{ path := "/a", method := "get" }, { path := "/b", method := "get" }]
    hash := "h" }

/-- Claim C4 witness: with paths whose generated names are distinct the
enriched tool names are duplicate-free. -/
theorem c4_witness :
    ((generateEnrichedDefinition c4ParsedOk {} "src.yaml" none "h" "t").tools.map
        (fun t => t.name)).Nodup :=
  (c4_names_unique_iff_generator_injective c4ParsedOk {} "src.yaml" none "h" "t").2 (by decide)

/-! ### Claim C8 -/

def c8Path : ParsedPath :=
  { path := "/upload"
    method := "post"
    requestBody := some
      { required := true, content := [("text/plain", .obj [("type", .str "string")])] } }

/-- Claim C8 counterexample: the claim says any non-JSON media type yields a
single required `body` property.  A required `text/plain` body is not among
the three supported media types, so it is ignored outright: the compiled
input schema has no `body` property and nothing required. -/
theorem c8_text_plain_body_ignored :
    convertToMCPInputSchema {} c8Path "t" =
      { type := "object", properties := [], required := [] } ∧
    c8Path.requestBody.map (fun rb => rb.required) = some true := by
  exact ⟨rfl, rfl⟩

/-- The property keys the customization's predefined parameters can touch
for a given tool. -/
def predefKeys (customization : CustomizationConfig) (toolName : String) : List String :=
  match customization.predefinedParameters with
  | some pp =>
      (match pp.global with
       | some g => g.map Prod.fst
       | none => []) ++
      (match pp.endpoints with
       | some eps =>
           match eps.lookup toolName with
           | some ps => ps.map Prod.fst
           | none => []
       | none => [])
  | none => []

theorem setDefaultIfPresent_required (schema : InputSchema) (k : String) (v : JValue) :
    (setDefaultIfPresent schema k v).required = schema.required := by
  unfold setDefaultIfPresent
  rcases schema.properties.lookup k with _ | prop
  · rfl
  · dsimp only
    by_cases h : truthyV prop = true
    · rw [if_pos h]
    · rw [if_neg h]

theorem setDefaultIfPresent_lookup_ne (schema : InputSchema) (k k' : String) (v : JValue)
    (h : k ≠ k') :
    (setDefaultIfPresent schema k v).properties.lookup k' =
      schema.properties.lookup k' := by
  unfold setDefaultIfPresent
  rcases schema.properties.lookup k with _ | prop
  · rfl
  · dsimp only
    by_cases ht : truthyV prop = true
    · rw [if_pos ht]
      exact lookup_objSet_ne _ _ _ _ h
    · rw [if_neg ht]

theorem foldl_setDefault_preserves (entries : JObj) :
    ∀ acc : InputSchema, (∀ kv ∈ entries, kv.1 ≠ "body") →
      ((entries.foldl (fun acc kv => setDefaultIfPresent acc kv.1 kv.2) acc).properties.lookup
          "body" = acc.properties.lookup "body" ∧
        (entries.foldl (fun acc kv => setDefaultIfPresent acc kv.1 kv.2) acc).required =
          acc.required) := by
  induction entries with
  | nil => intro acc _; exact ⟨rfl, rfl⟩
  | cons kv rest ih =>
      intro acc h
      simp only [List.foldl_cons]
      have h1 := h kv (by simp)
      obtain ⟨ihp, ihr⟩ := ih (setDefaultIfPresent acc kv.1 kv.2)
        (fun kv' hkv' => h kv' (by simp [hkv']))
      refine ⟨?_, ?_⟩
      · rw [ihp, setDefaultIfPresent_lookup_ne _ _ _ _ h1]
      · rw [ihr, setDefaultIfPresent_required]

/-- Source `applyPredefinedParameters` never touches `required` and leaves the
`body` property alone when no predefined parameter is named `body`. -/
theorem applyPredefined_preserves (customization : CustomizationConfig) (toolName : String)
    (schema : InputSchema) (h : "body" ∉ predefKeys customization toolName) :
    ((applyPredefinedParameters customization toolName schema).properties.lookup "body" =
      schema.properties.lookup "body" ∧
     (applyPredefinedParameters customization toolName schema).required = schema.required) := by
  unfold applyPredefinedParameters
  unfold predefKeys at h
  rcases hpp : customization.predefinedParameters with _ | pp
  · exact ⟨rfl, rfl⟩
  · rw [hpp] at h
    dsimp only at h ⊢
    simp only [List.mem_append] at h
    push_neg at h
    obtain ⟨h1, h2⟩ := h
    rcases hg : pp.global with _ | g <;> rw [hg] at h1 <;> dsimp only at h1 ⊢ <;>
      rcases heps : pp.endpoints with _ | eps <;> rw [heps] at h2 <;> dsimp only at h2 ⊢
    · exact ⟨rfl, rfl⟩
    · rcases hps : eps.lookup toolName with _ | ps <;> rw [hps] at h2 <;> dsimp only at h2 ⊢
      · exact ⟨rfl, rfl⟩
      · exact foldl_setDefault_preserves ps schema
          (fun kv hkv hc => h2 (hc ▸ List.mem_map_of_mem Prod.fst hkv))
    · exact foldl_setDefault_preserves g schema
        (fun kv hkv hc => h1 (hc ▸ List.mem_map_of_mem Prod.fst hkv))
    · rcases hps : eps.lookup toolName with _ | ps <;> rw [hps] at h2 <;> dsimp only at h2 ⊢
      · exact foldl_setDefault_preserves g schema
          (fun kv hkv hc => h1 (hc ▸ List.mem_map_of_mem Prod.fst hkv))
      · obtain ⟨hp1, hr1⟩ := foldl_setDefault_preserves g schema
          (fun kv hkv hc => h1 (hc ▸ List.mem_map_of_mem Prod.fst hkv))
        obtain ⟨hp2, hr2⟩ := foldl_setDefault_preserves ps
          (g.foldl (fun acc kv => setDefaultIfPresent acc kv.1 kv.2) schema)
          (fun kv hkv hc => h2 (hc ▸ List.mem_map_of_mem Prod.fst hkv))
        exact ⟨hp2.trans hp1, hr2.trans hr1⟩

/-- The parameter-collection fold introduces no `body` property when no
parameter carries that name. -/
theorem addParams_no_body (params : List ParsedParameter) :
    ∀ acc : InputSchema, (∀ p ∈ params, p.name ≠ "body") →
      acc.properties.lookup "body" = none → "body" ∉ acc.required →
      ((params.foldl addParameterToSchema acc).properties.lookup "body" = none ∧
       "body" ∉ (params.foldl addParameterToSchema acc).required) := by
  induction params with
  | nil => intro acc _ h1 h2; exact ⟨h1, h2⟩
  | cons p rest ih =>
      intro acc h h1 h2
      simp only [List.foldl_cons]
      apply ih _ (fun q hq => h q (by simp [hq]))
      · show (objSet acc.properties p.name _).lookup "body" = none
        rw [lookup_objSet_ne _ _ _ _ (h p (by simp)), h1]
      · show "body" ∉ (if p.required then acc.required ++ [p.name] else acc.required)
        by_cases hr : p.required
        · rw [if_pos hr]
          simp only [List.mem_append, List.mem_singleton]
          push_neg
          exact ⟨h2, (h p (by simp)).symm⟩
        · rw [if_neg hr]
          exact h2

/-- Claim C8 (amended): when the request body's selected media type is one
of the two supported non-JSON forms (urlencoded/multipart), or the selected
JSON body's converted schema is not an object with truthy properties, the
compiled input schema carries a single `body` property holding the raw
converted body schema, required exactly when the request body was declared
required — provided no operation parameter and no predefined parameter is
itself named `body`; request bodies with only other media types are ignored
and contribute no `body` property. -/
theorem c8_opaque_body_field (customization : CustomizationConfig) (parsedPath : ParsedPath)
    (toolName : String) (rb : ParsedRequestBody)
    (hrb : parsedPath.requestBody = some rb)
    (hparams : ∀ p ∈ parsedPath.parameters, p.name ≠ "body")
    (hpredef : "body" ∉ predefKeys customization toolName) :
    (∀ ct sch, selectContent rb = some (ct, sch) → ct ≠ "application/json" →
      ((convertToMCPInputSchema customization parsedPath toolName).properties.lookup "body" =
        some (convertSchema sch)) ∧
      ("body" ∈ (convertToMCPInputSchema customization parsedPath toolName).required ↔
        rb.required = true)) ∧
    (∀ sch, selectContent rb = some ("application/json", sch) →
      ¬((asObj (convertSchema sch)).lookup "type" = some (.str "object") ∧
        truthy ((asObj (convertSchema sch)).lookup "properties") = true) →
      ((convertToMCPInputSchema customization parsedPath toolName).properties.lookup "body" =
        some (convertSchema sch)) ∧
      ("body" ∈ (convertToMCPInputSchema customization parsedPath toolName).required ↔
        rb.required = true)) := by
  have hs1 := addParams_no_body parsedPath.parameters
    { type := "object", properties := [], required := [] } hparams (by simp) (by simp)
  set s1 := parsedPath.parameters.foldl addParameterToSchema
    { type := "object", properties := [], required := [] } with hs1def
  have hconv : convertToMCPInputSchema customization parsedPath toolName =
      applyPredefinedParameters customization toolName (addRequestBodyToSchema s1 rb) := by
    unfold convertToMCPInputSchema
    rw [hrb]
  constructor
  · intro ct sch hsel hct
    have hs2 : addRequestBodyToSchema s1 rb =
        { s1 with
          properties := objSet s1.properties "body" (convertSchema sch)
          required := if rb.required then s1.required ++ ["body"] else s1.required } := by
      unfold addRequestBodyToSchema
      rw [hsel]
      simp only [if_neg hct]
    obtain ⟨hp, hr⟩ := applyPredefined_preserves customization toolName
      (addRequestBodyToSchema s1 rb) hpredef
    rw [hconv]
    refine ⟨?_, ?_⟩
    · rw [hp, hs2]
      exact lookup_objSet_self _ _ _
    · rw [hr, hs2]
      by_cases hreq : rb.required
      · simp only [if_pos hreq, hreq, List.mem_append, List.mem_singleton]
        simp [hs1.2]
      · simp only [if_neg hreq]
        constructor
        · intro hmem
          exact absurd hmem hs1.2
        · intro hcontra
          exact absurd hcontra (by simpa using hreq)
  · intro sch hsel hnotobj
    have hs2 : addRequestBodyToSchema s1 rb =
        { s1 with
          properties := objSet s1.properties "body" (convertSchema sch)
          required := if rb.required then s1.required ++ ["body"] else s1.required } := by
      unfold addRequestBodyToSchema
      rw [hsel]
      simp only [if_pos]
      unfold flattenObjectSchema
      rw [if_neg (by simpa using hnotobj)]
    obtain ⟨hp, hr⟩ := applyPredefined_preserves customization toolName
      (addRequestBodyToSchema s1 rb) hpredef
    rw [hconv]
    refine ⟨?_, ?_⟩
    · rw [hp, hs2]
      exact lookup_objSet_self _ _ _
    · rw [hr, hs2]
      by_cases hreq : rb.required
      · simp only [if_pos hreq, hreq, List.mem_append, List.mem_singleton]
        simp [hs1.2]
      · simp only [if_neg hreq]
        constructor
        · intro hmem
          exact absurd hmem hs1.2
        · intro hcontra
          exact absurd hcontra (by simpa using hreq)

def c8FormPath : ParsedPath :=
  { path := "/upload"
    method := "post"
    parameters := [{ name := "q", «in» := "query", required := false }]
    requestBody := some
      { required := true
        content := [("application/x-www-form-urlencoded", .obj [("type", .str "string")])] } }

/-- Claim C8 witness: a required urlencoded body at a concrete operation
gets the single required `body` property holding its converted schema. -/
theorem c8_witness :
    ((convertToMCPInputSchema {} c8FormPath "t").properties.lookup "body" =
      some (convertSchema (.obj [("type", .str "string")]))) ∧
    ("body" ∈ (convertToMCPInputSchema {} c8FormPath "t").required ↔ true = true) :=
  ((c8_opaque_body_field {} c8FormPath "t"
      { required := true
        content := [("application/x-www-form-urlencoded", .obj [("type", .str "string")])] }
      rfl (by decide) (by decide)).1
    "application/x-www-form-urlencoded" (.obj [("type", .str "string")])
    (by decide) (by decide))

end OpenapiMcpBridge
